import Mathlib

/-!
Verification development for the Relayboy symmetric double-ratchet core.

The repository's Python sources are shallowly embedded here:

* `src/backend/quantum_encryption_module.py`  (V1 sender, `SymmetricRatchet`)
* `src/backend/quantum_decryption_module.py`  (V1 receiver, `SymmetricRatchetReceiver`)
* `src/kyber/quantum_encryption_module.py`    (V2 sender, `QuantumDoubleRatchet`)
* `src/kyber/quantum_decryption_module.py`    (V2 receiver, `QuantumDoubleRatchetReceiver`)

Byte strings are modelled as `List Nat` over a symbolic byte alphabet:
a *literal* byte carrying value `v` is `Nat.pair 0 v`, while the outputs of
the cryptographic primitives the code consumes (HKDF-SHA256 and AES-256-GCM,
which are external library collaborators, not code of this repository) are
modelled as free symbolic constructors tagged `Nat.pair 1 _` (HKDF output
bytes), `Nat.pair 2 _` (GCM ciphertext bytes) and `Nat.pair 3 _` (GCM tag
bytes).  This is the standard ideal-primitive model: derivations are
deterministic, distinct inputs give distinct outputs, GCM decryption of an
honestly produced ciphertext returns the plaintext, and a tag verifies iff it
was computed over exactly the same key, nonce, AAD and ciphertext.  All
ratchet logic above the primitives is translated directly from the source.
-/

/-- Byte strings of the program, as lists of symbolic bytes. -/
abbrev Bytes := List Nat

/-- A literal byte with concrete value `v` (callers' plaintexts, secrets,
AADs and CSPRNG output are injected through this constructor). -/
def blit (v : Nat) : Nat := Nat.pair 0 v

/-- Inject a concrete byte-value string into the symbolic byte alphabet. -/
def raw (l : List Nat) : Bytes := l.map blit

/-- The concrete value carried by a literal byte (partial inverse of `blit`). -/
def byteVal (b : Nat) : Nat := (Nat.unpair b).2

/-- Injective encoding of a byte string into a single `Nat`, used to build
the symbolic primitive constructors. -/
def encList : List Nat → Nat
  | [] => 0
  | a :: l => Nat.pair a (encList l) + 1

/-- Injective encoding of an optional byte string. -/
def encOpt : Option (List Nat) → Nat
  | none => 0
  | some l => encList l + 1

/-- Byte `i` of the symbolic HKDF-SHA256 output stream for the given
inputs.  Models the `HKDF(master, key_len, salt, SHA256, context)` library
primitive the source calls. -/
def hkdfByte (ikm : Bytes) (salt : Option Bytes) (info : Bytes) (outLen i : Nat) : Nat :=
  Nat.pair 1 (Nat.pair (encList ikm) (Nat.pair (encOpt salt) (Nat.pair (encList info)
    (Nat.pair outLen i))))

/-- Symbolic model of the HKDF-SHA256 primitive (external collaborator):
`outLen` pairwise-distinct bytes determined by `(ikm, salt, info, outLen)`. -/
def HKDF (ikm : Bytes) (salt : Option Bytes) (info : Bytes) (outLen : Nat) : Bytes :=
  (List.range outLen).map (hkdfByte ikm salt info outLen)

/-- Symbolic AES-256-GCM ciphertext byte: position `i` of the keystream for
`(key, nonce)` combined with plaintext byte `b`.  Real GCM ciphertext depends
on exactly these data (the AAD only enters the tag). -/
def gcmCtByte (key nonce : Bytes) (i b : Nat) : Nat :=
  Nat.pair 2 (Nat.pair (encList key) (Nat.pair (encList nonce) (Nat.pair i b)))

/-- Symbolic GCM encryption of a plaintext starting at keystream position `i`. -/
def gcmCt (key nonce : Bytes) : Nat → Bytes → Bytes
  | _, [] => []
  | i, b :: bs => gcmCtByte key nonce i b :: gcmCt key nonce (i + 1) bs

/-- Inverse of `gcmCtByte` on honest ciphertext bytes (CTR decryption). -/
def gcmCtDecByte (c : Nat) : Nat :=
  (Nat.unpair (Nat.unpair (Nat.unpair (Nat.unpair c).2).2).2).2

/-- Byte `i` of the symbolic GCM authentication tag over
`(key, nonce, aad, ct)`; a tag verifies iff recomputing it over the same
data yields the same 16 bytes. -/
def gcmTagByte (key nonce aad ct : Bytes) (i : Nat) : Nat :=
  Nat.pair 3 (Nat.pair (encList key) (Nat.pair (encList nonce) (Nat.pair (encList aad)
    (Nat.pair (encList ct) i))))

/-- The 16-byte symbolic GCM tag. -/
def gcmTag (key nonce aad ct : Bytes) : Bytes :=
  (List.range 16).map (gcmTagByte key nonce aad ct)

/-- Model of `cipher.encrypt_and_digest`: ciphertext and tag.  A `None` AAD
and an empty AAD are identified (as in real GCM, where not calling
`cipher.update` equals authenticating an empty AAD). -/
def encrypt_and_digest (key nonce aad pt : Bytes) : Bytes × Bytes :=
  (gcmCt key nonce 0 pt, gcmTag key nonce aad (gcmCt key nonce 0 pt))

/-- Model of `cipher.decrypt_and_verify`: verify the tag, then decrypt.
Returns `none` on a tag mismatch (the `ValueError` auth failure). -/
def decrypt_and_verify (key nonce aad ct tag : Bytes) : Option Bytes :=
  if tag = gcmTag key nonce aad ct then some (ct.map gcmCtDecByte) else none

/-- The byte string authenticated for an optional AAD (`cipher.update` is
called only when the source passes a non-`None` AAD). -/
def aadD (aad : Option Bytes) : Bytes := aad.getD []

/-!
Shared constants of both modules (`--- CONSTANTS ---` blocks in the four
source files).  Domain-label byte strings are kept as their ASCII values.
-/

/-- ASCII bytes of a string literal (Python `b"..."` / `.encode('utf-8')`
for ASCII text). -/
def strBytes (s : String) : List Nat := s.toList.map Char.toNat

def AES_KEY_SIZE : Nat := 32

def SALT_SIZE : Nat := 16

def NONCE_SIZE : Nat := 12

def TAG_SIZE : Nat := 16

/-- `HKDF_INFO = b"AES-GCM-256-KEY"` (V1 modules). -/
def HKDF_INFO : List Nat := strBytes "AES-GCM-256-KEY"

/-- `HKDF_INFO = b"AES-GCM-256-ZERO-METADATA"` (V2 modules). -/
def HKDF_INFO_V2 : List Nat := strBytes "AES-GCM-256-ZERO-METADATA"

def RATCHET_INFO_CHAIN : List Nat := strBytes "RATCHET-CHAIN-KEY"

def RATCHET_INFO_MSG : List Nat := strBytes "RATCHET-MESSAGE-KEY"

/-- `b"MESSAGE-LOOKUP-ID"` (V2 beacon derivation label). -/
def MESSAGE_LOOKUP_ID : List Nat := strBytes "MESSAGE-LOOKUP-ID"

/-- `b"ROOT-REFRESH"` (V2 root refresh label). -/
def ROOT_REFRESH : List Nat := strBytes "ROOT-REFRESH"

def MAX_SKIP_RANGE : Nat := 1000

def MAX_STORED_KEYS : Nat := 2000

def FIXED_PAYLOAD_SIZE : Nat := 512

/-- Error outcomes of the embedded operations.  Each constructor names one
`raise` site of the sources: `malformedPacket` the package-size
`ValueError`s, `authFailure` the GCM `decrypt_and_verify` failure (in the V2
receiver this failure surfaces as a `TypeError` when `_unpack(None)` is
reached, but it is the same auth-failure outcome), `replayOrStale`,
`skipTooLarge` and `skipStoreOverflow` the three V1 receiver `ValueError`s,
`unknownBeacon` the V2 `Unknown Beacon` `ValueError`, and `payloadTooLarge`
the V2 sender `Message too large` `ValueError`. -/
inductive Err where
  | malformedPacket
  | authFailure
  | replayOrStale
  | skipTooLarge
  | skipStoreOverflow
  | unknownBeacon
  | payloadTooLarge
deriving DecidableEq, Repr

/-!
V1 sender: `encrypt_message` and `SymmetricRatchet`
(`src/backend/quantum_encryption_module.py`).  Randomness (`os.urandom`) is
supplied by an explicit per-call byte tape `rnd : Nat → Nat`; the salt takes
tape positions `0..15` and the nonce positions `16..27`.  `secure_wipe` is a
memory-hygiene no-op at this level of abstraction and is not modelled.
-/

/-- `encrypt_message(shared_secret, plaintext, aad)`: HKDF the AES key from
the secret with a fresh random salt, AES-256-GCM encrypt, and package as
`salt || nonce || ciphertext || tag`. -/
def encrypt_message (shared_secret pt : Bytes) (aad : Option Bytes) (rnd : Nat → Nat) : Bytes :=
  let salt := raw ((List.range SALT_SIZE).map rnd)
  let aes_key := HKDF shared_secret (some salt) HKDF_INFO AES_KEY_SIZE
  let nonce := raw ((List.range NONCE_SIZE).map fun i => rnd (SALT_SIZE + i))
  let ctag := encrypt_and_digest aes_key nonce (aadD aad) pt
  salt ++ nonce ++ ctag.1 ++ ctag.2

/-- V1 sender ratchet state (`SymmetricRatchet.__init__` sets
`_chain_key = bytearray(shared_secret)` and `_step = 0`; the only
constructor-time check is `isinstance(shared_secret, bytes)`, which is
type-level here — no length validation exists). -/
structure SymmetricRatchet where
  chain_key : Bytes
  step : Nat
deriving DecidableEq

/-- `SymmetricRatchet(shared_secret)` for a concrete byte string. -/
def SymmetricRatchet.init (shared_secret : List Nat) : SymmetricRatchet :=
  ⟨raw shared_secret, 0⟩

/-- `SymmetricRatchet._advance`: derive the message key, advance the chain
key, increment the step; returns the message key and the new state. -/
def SymmetricRatchet.advance (s : SymmetricRatchet) : Bytes × SymmetricRatchet :=
  (HKDF s.chain_key none RATCHET_INFO_MSG AES_KEY_SIZE,
   ⟨HKDF s.chain_key none RATCHET_INFO_CHAIN AES_KEY_SIZE, s.step + 1⟩)

/-- `SymmetricRatchet.encrypt(plaintext, aad)`. -/
def SymmetricRatchet.encrypt (s : SymmetricRatchet) (pt : Bytes) (aad : Option Bytes)
    (rnd : Nat → Nat) : Bytes × SymmetricRatchet :=
  let a := s.advance
  (encrypt_message a.1 pt aad rnd, a.2)

/-!
V1 receiver (`src/backend/quantum_decryption_module.py`).

The AAD target-step parse (`decrypt`, lines 139-148) works on the decoded
text of the AAD.  It is modelled on the AAD's byte values, which is faithful
for ASCII AADs (where `decode('utf-8', errors='ignore')` is the identity);
Python's `int()` is modelled with its optional surrounding whitespace, an
optional sign, and decimal digits with single interior underscores.
-/

/-- Characters stripped by Python `int()` around a numeric literal. -/
def isWsB (c : Nat) : Bool := c = 32 || c = 9 || c = 10 || c = 13 || c = 11 || c = 12

def isDigitB (c : Nat) : Bool := 48 ≤ c && c ≤ 57

/-- Tail of a Python integer literal: digits with single interior
underscores (`1_000` parses, `1__0`, `1_` and `_1` do not). -/
def usTail : List Nat → Bool
  | [] => true
  | 95 :: d :: l => isDigitB d && usTail l
  | 95 :: [] => false
  | c :: l => isDigitB c && usTail l

def usOk : List Nat → Bool
  | [] => false
  | c :: l => isDigitB c && usTail l

/-- Value of a digits-and-underscores literal. -/
def usVal (l : List Nat) : Nat :=
  (l.filter fun c => c != 95).foldl (fun a c => a * 10 + (c - 48)) 0

def trimWs (l : List Nat) : List Nat :=
  ((l.dropWhile isWsB).reverse.dropWhile isWsB).reverse

/-- Model of Python `int(text)` on ASCII character codes: `none` when the
call raises `ValueError`. -/
def parsePyInt (l : List Nat) : Option Int :=
  match trimWs l with
  | 43 :: r => if usOk r then some (usVal r) else none
  | 45 :: r => if usOk r then some (-(usVal r : Int)) else none
  | r => if usOk r then some (usVal r) else none

/-- The suffix after the first occurrence of `pat`, or `none` when `pat`
does not occur (`text.split(pat)[1]` prefix extraction, step 1). -/
def afterPat (pat : List Nat) : List Nat → Option (List Nat)
  | [] => none
  | c :: l => if pat.isPrefixOf (c :: l) then some ((c :: l).drop pat.length)
      else afterPat pat l

/-- The prefix before the next occurrence of `pat` (completes
`text.split(pat)[1]`). -/
def beforePat (pat : List Nat) : List Nat → List Nat
  | [] => []
  | c :: l => if pat.isPrefixOf (c :: l) then [] else c :: beforePat pat l

/-- ASCII codes of `"seq:"`. -/
def SEQ_PAT : List Nat := strBytes "seq:"

/-- The V1 receiver's AAD sequence parse: the text between the first
`"seq:"` and the following `"seq:"` or end, cut at the first `'|'`, fed to
`int()`; `none` when the AAD has no `"seq:"` or `int()` raises. -/
def parsedSeq (aadBytes : Bytes) : Option Int :=
  match afterPat SEQ_PAT (aadBytes.map byteVal) with
  | none => none
  | some rest => parsePyInt ((beforePat SEQ_PAT rest).takeWhile fun c => c ≠ 124)

/-- The parsed sequence of an optional AAD (`if aad:` treats `None` and the
empty byte string as absent). -/
def aadSeq (aad : Option Bytes) : Option Int :=
  match aad with
  | none => none
  | some a => if a = [] then none else parsedSeq a

/-- The target step of a V1 `decrypt` call: the parsed `seq` field when
present and parseable, else `current_step + 1`. -/
def targetOfAad (step : Nat) (aad : Option Bytes) : Int :=
  (aadSeq aad).getD ((step : Int) + 1)

/-!
Skipped-key store: a Python `dict` keyed by step numbers, as an
insertion-ordered association list with unique keys.
-/

/-- `dict` membership/lookup. -/
def lookupSkip : List (Nat × Bytes) → Nat → Option Bytes
  | [], _ => none
  | p :: l, n => if p.1 = n then some p.2 else lookupSkip l n

/-- Lookup with a Python `int` key (negative keys match nothing in a dict
keyed by naturals). -/
def lookupSkipI (sk : List (Nat × Bytes)) (t : Int) : Option Bytes :=
  if 0 ≤ t then lookupSkip sk t.toNat else none

/-- `dict.pop`'s removal part. -/
def eraseSkip (sk : List (Nat × Bytes)) (n : Nat) : List (Nat × Bytes) :=
  sk.filter fun p => p.1 != n

/-- `dict` insertion: overwrite in place or append. -/
def insertSkip (sk : List (Nat × Bytes)) (n : Nat) (v : Bytes) : List (Nat × Bytes) :=
  if (lookupSkip sk n).isSome then sk.map (fun p => if p.1 = n then (n, v) else p)
  else sk ++ [(n, v)]

/-- Result of the catch-up loop shared by the V1 receiver (`decrypt` case B)
and the V2 receiver (`decrypt` case B): the message key for the target step,
the new chain key, the new step, and the skipped store extended with every
intermediate message key.  The fuel is `target - step ≥ 1`. -/
structure CatchRes where
  msgKey : Bytes
  chainKey : Bytes
  step : Nat
  skipped : List (Nat × Bytes)

/-- `while self._step < target: mk := self._advance(); ...` — each
iteration derives the step's message key; intermediate keys are stored
under their step, the final one is returned. -/
def ratchetCatchUp : Bytes → Nat → List (Nat × Bytes) → Nat → CatchRes
  | ck, st, sk, 0 =>
      ⟨HKDF ck none RATCHET_INFO_MSG AES_KEY_SIZE,
       HKDF ck none RATCHET_INFO_CHAIN AES_KEY_SIZE, st + 1, sk⟩
  | ck, st, sk, 1 =>
      ⟨HKDF ck none RATCHET_INFO_MSG AES_KEY_SIZE,
       HKDF ck none RATCHET_INFO_CHAIN AES_KEY_SIZE, st + 1, sk⟩
  | ck, st, sk, d + 2 =>
      ratchetCatchUp (HKDF ck none RATCHET_INFO_CHAIN AES_KEY_SIZE) (st + 1)
        (insertSkip sk (st + 1) (HKDF ck none RATCHET_INFO_MSG AES_KEY_SIZE)) (d + 1)

/-- `decrypt_message(shared_secret, package, aad)`: split
`salt(16) || nonce(12) || ciphertext || tag(16)`, re-derive the AES key with
the extracted salt, and GCM decrypt-and-verify. -/
def decrypt_message (shared_secret package : Bytes) (aad : Option Bytes) : Except Err Bytes :=
  if package.length < SALT_SIZE + NONCE_SIZE + TAG_SIZE then .error .malformedPacket
  else
    let salt := package.take SALT_SIZE
    let nonce := (package.drop SALT_SIZE).take NONCE_SIZE
    let body := package.drop (SALT_SIZE + NONCE_SIZE)
    let ct := body.take (body.length - TAG_SIZE)
    let tag := body.drop (body.length - TAG_SIZE)
    let aes_key := HKDF shared_secret (some salt) HKDF_INFO AES_KEY_SIZE
    match decrypt_and_verify aes_key nonce (aadD aad) ct tag with
    | some pt => .ok pt
    | none => .error .authFailure

/-- V1 receiver state (`SymmetricRatchetReceiver.__init__`: no validation of
the initial secret at all). -/
structure SymmetricRatchetReceiver where
  chain_key : Bytes
  step : Nat
  skipped_keys : List (Nat × Bytes)
deriving DecidableEq

/-- `SymmetricRatchetReceiver(initial_shared_secret)`. -/
def SymmetricRatchetReceiver.init (secret : List Nat) : SymmetricRatchetReceiver :=
  ⟨raw secret, 0, []⟩

/-- `SymmetricRatchetReceiver.decrypt(package, aad)`: resolve the target
step from the AAD, dispatch on skipped key / catch-up / replay, then
delegate to `decrypt_message`.  Returns the result together with the state
after the call. -/
def SymmetricRatchetReceiver.decrypt (s : SymmetricRatchetReceiver) (package : Bytes)
    (aad : Option Bytes) : Except Err Bytes × SymmetricRatchetReceiver :=
  let t := targetOfAad s.step aad
  match lookupSkipI s.skipped_keys t with
  | some mkey =>
      (decrypt_message mkey package aad,
       ⟨s.chain_key, s.step, eraseSkip s.skipped_keys t.toNat⟩)
  | none =>
      if (s.step : Int) < t then
        let dist : Int := t - (s.step : Int)
        if (MAX_SKIP_RANGE : Int) < dist then (.error .skipTooLarge, s)
        else if (MAX_STORED_KEYS : Int) < (s.skipped_keys.length : Int) + dist then
          (.error .skipStoreOverflow, s)
        else
          let r := ratchetCatchUp s.chain_key s.step s.skipped_keys dist.toNat
          (decrypt_message r.msgKey package aad, ⟨r.chainKey, r.step, r.skipped⟩)
      else (.error .replayOrStale, s)

/-!
V2 sender (`src/kyber/quantum_encryption_module.py`).

The hidden header is `json.dumps({"s": sender_id, "n": step, "t": ts,
"i": msg_id})` with Python's default separators; the serialization is
modelled literally for sender ids and message ids that JSON-escape to
themselves (ASCII without quotes, backslashes or control characters — the
round-trip theorems never inspect the header, only its length).  The clock
value `int(time.time())`, the id `str(uuid.uuid4())[:8]` and the `os.urandom`
tape are supplied through an explicit per-call environment: the nonce takes
tape positions `0..11` and the padding positions `12..`.  `len.to_bytes(4,
'big')` is modelled modulo `2^32` (Python raises `OverflowError` beyond
that; no reachable claim input gets there).
-/

/-- Per-call environment of a V2 `encrypt`: clock, message id, CSPRNG tape. -/
structure EnvV2 where
  ts : Nat
  uid : String
  rnd : Nat → Nat

/-- `json.dumps({"s": sid, "n": n, "t": t, "i": uid})` with default
separators. -/
def jsonHeader (sid : String) (n t : Nat) (uid : String) : String :=
  "\x7b\"s\": \"" ++ sid ++ "\", \"n\": " ++ toString n ++ ", \"t\": " ++ toString t ++
    ", \"i\": \"" ++ uid ++ "\"\x7d"

/-- `n.to_bytes(4, 'big')`. -/
def u32be (n : Nat) : Bytes :=
  [blit (n / 16777216 % 256), blit (n / 65536 % 256), blit (n / 256 % 256), blit (n % 256)]

/-- `int.from_bytes(l, 'big')`. -/
def from_bytes_be (l : Bytes) : Nat := l.foldl (fun a b => a * 256 + byteVal b) 0

/-- V2 sender state (`QuantumDoubleRatchet.__init__`: `_root_key` is the
secret itself, `_chain_key = bytearray(shared_secret)`, no validation). -/
structure QuantumDoubleRatchet where
  root_key : Bytes
  chain_key : Bytes
  step : Nat
  sender_id : String

/-- `QuantumDoubleRatchet(shared_secret, sender_id)`. -/
def QuantumDoubleRatchet.init (secret : List Nat) (sid : String) : QuantumDoubleRatchet :=
  ⟨raw secret, raw secret, 0, sid⟩

/-- `QuantumDoubleRatchet.refresh_root(new_entropy)`:
`root' = HKDF(root || entropy, info=b"ROOT-REFRESH")`, chain reset to the new
root, step to 0. -/
def QuantumDoubleRatchet.refresh_root (s : QuantumDoubleRatchet) (entropy : Bytes) :
    QuantumDoubleRatchet :=
  let new_root := HKDF (s.root_key ++ entropy) none ROOT_REFRESH AES_KEY_SIZE
  ⟨new_root, new_root, 0, s.sender_id⟩

/-- `QuantumDoubleRatchet.encrypt(plaintext)`: advance, build the hidden
header, pack `u32be(|H|) || H || u32be(|m|) || m`, pad to 512 with random
bytes, AES-GCM under the HKDF-derived key, and emit
`beacon(16) || nonce(12) || tag(16) || ct(512)`.  The size check happens
after the advance, so an oversized message still burns the step. -/
def QuantumDoubleRatchet.encrypt (s : QuantumDoubleRatchet) (pt : Bytes) (e : EnvV2) :
    Except Err Bytes × QuantumDoubleRatchet :=
  let msg_key := HKDF s.chain_key none RATCHET_INFO_MSG AES_KEY_SIZE
  let s' : QuantumDoubleRatchet :=
    ⟨s.root_key, HKDF s.chain_key none RATCHET_INFO_CHAIN AES_KEY_SIZE, s.step + 1, s.sender_id⟩
  let header_bytes := raw (strBytes (jsonHeader s.sender_id s'.step e.ts e.uid))
  let content := u32be header_bytes.length ++ header_bytes ++ u32be pt.length ++ pt
  if FIXED_PAYLOAD_SIZE < content.length then (.error .payloadTooLarge, s')
  else
    let padded := content ++ raw ((List.range (FIXED_PAYLOAD_SIZE - content.length)).map
      fun i => e.rnd (NONCE_SIZE + i))
    let aes_key := HKDF msg_key none HKDF_INFO_V2 AES_KEY_SIZE
    let lookup_id := HKDF msg_key none MESSAGE_LOOKUP_ID 16
    let nonce := raw ((List.range NONCE_SIZE).map e.rnd)
    let ctag := encrypt_and_digest aes_key nonce [] padded
    (.ok (lookup_id ++ nonce ++ ctag.2 ++ ctag.1), s')

/-!
V2 receiver (`src/kyber/quantum_decryption_module.py`).
-/

/-- `trial_decrypt(msg_key, package)`: split
`nonce(12) || tag(16) || ciphertext`, derive the AES key, GCM
decrypt-and-verify; `none` on failure. -/
def trial_decrypt (msg_key package : Bytes) : Option Bytes :=
  let nonce := package.take NONCE_SIZE
  let tag := (package.drop NONCE_SIZE).take TAG_SIZE
  let ciphertext := package.drop (NONCE_SIZE + TAG_SIZE)
  decrypt_and_verify (HKDF msg_key none HKDF_INFO_V2 AES_KEY_SIZE) nonce [] ciphertext tag

/-- The V2 lookup cache: a `dict` from 16-byte beacons to `(key, seq)`
pairs, as an insertion-ordered association list. -/
abbrev LookupCache := List (Bytes × Bytes × Nat)

/-- `dict` lookup by beacon. -/
def clookup : LookupCache → Bytes → Option (Bytes × Nat)
  | [], _ => none
  | e :: l, b => if e.1 = b then some e.2 else clookup l b

/-- `dict` insertion by beacon: overwrite in place or append. -/
def cinsert (c : LookupCache) (lid key : Bytes) (seq : Nat) : LookupCache :=
  if (clookup c lid).isSome then c.map (fun p => if p.1 = lid then (lid, key, seq) else p)
  else c ++ [(lid, key, seq)]

/-- The lookahead half of `_refresh_lookup_cache`: starting from a shadow
copy of the chain, derive the next `n` message keys and index them by their
beacons, never touching the real chain. -/
def lookaheadFill (c : LookupCache) (ck : Bytes) (st : Nat) : Nat → LookupCache
  | 0 => c
  | n + 1 =>
      let candidate_key := HKDF ck none RATCHET_INFO_MSG AES_KEY_SIZE
      lookaheadFill (cinsert c (HKDF candidate_key none MESSAGE_LOOKUP_ID 16) candidate_key
        (st + 1)) (HKDF ck none RATCHET_INFO_CHAIN AES_KEY_SIZE) (st + 1) n

/-- `QuantumDoubleRatchetReceiver.MAX_SKIP`. -/
def MAX_SKIP : Nat := 100

/-- `QuantumDoubleRatchetReceiver.MAX_CACHE`.  Declared in the source class
body, but never referenced by any method. -/
def MAX_CACHE : Nat := 50

/-- `_refresh_lookup_cache`: clear, index every skipped key by its beacon
(in dict insertion order), then index the next `MAX_SKIP` shadow-chain
keys. -/
def refresh_lookup_cache (skipped : List (Nat × Bytes)) (ck : Bytes) (st : Nat) : LookupCache :=
  lookaheadFill
    (skipped.foldl (fun c p => cinsert c (HKDF p.2 none MESSAGE_LOOKUP_ID 16) p.2 p.1) [])
    ck st MAX_SKIP

/-- V2 receiver state (`QuantumDoubleRatchetReceiver.__init__`: no secret
validation; the cache is built eagerly at construction). -/
structure QuantumDoubleRatchetReceiver where
  root_key : Bytes
  chain_key : Bytes
  step : Nat
  skipped_keys : List (Nat × Bytes)
  lookup_cache : LookupCache

/-- `QuantumDoubleRatchetReceiver(initial_shared_secret)`. -/
def QuantumDoubleRatchetReceiver.init (secret : List Nat) : QuantumDoubleRatchetReceiver :=
  ⟨raw secret, raw secret, 0, [], refresh_lookup_cache [] (raw secret) 0⟩

/-- `QuantumDoubleRatchetReceiver.refresh_root(new_entropy)`: derive the new
root, reset chain and step, clear skipped keys, rebuild the cache. -/
def QuantumDoubleRatchetReceiver.refresh_root (s : QuantumDoubleRatchetReceiver)
    (entropy : Bytes) : QuantumDoubleRatchetReceiver :=
  let new_root := HKDF (s.root_key ++ entropy) none ROOT_REFRESH AES_KEY_SIZE
  ⟨new_root, new_root, 0, [], refresh_lookup_cache [] new_root 0⟩

/-- `QuantumDoubleRatchetReceiver._unpack(decrypted_payload)`: read the
header length, skip the header, read the message length, return the
message, discarding the trailing padding.  (The source also `json.loads`es
the header purely to print its fields; every payload this development feeds
to `_unpack` carries a `jsonHeader`-produced header, for which that parse
succeeds.) -/
def unpackPayload (payload : Bytes) : Bytes :=
  let h_len := from_bytes_be (payload.take 4)
  let m_start := 4 + h_len
  let m_len := from_bytes_be ((payload.drop m_start).take 4)
  (payload.drop (m_start + 4)).take m_len

/-- `QuantumDoubleRatchetReceiver.decrypt(package)`: beacon lookup, then
either consume a skipped key or advance the real chain to the matched step,
trial-decrypt, rebuild the cache, unpack.  When `trial_decrypt` returns
`None` the source still deletes the skipped key / keeps the advanced chain
and rebuilds the cache before `_unpack(None)` raises; that outcome is
`.error .authFailure` here with exactly that post-state. -/
def QuantumDoubleRatchetReceiver.decrypt (s : QuantumDoubleRatchetReceiver) (package : Bytes) :
    Except Err Bytes × QuantumDoubleRatchetReceiver :=
  if package.length < 16 + NONCE_SIZE + TAG_SIZE then (.error .malformedPacket, s)
  else
    let beacon := package.take 16
    let crypto_blob := package.drop 16
    match clookup s.lookup_cache beacon with
    | none => (.error .unknownBeacon, s)
    | some ms =>
        if (lookupSkip s.skipped_keys ms.2).isSome then
          let sk' := eraseSkip s.skipped_keys ms.2
          let s' : QuantumDoubleRatchetReceiver :=
            ⟨s.root_key, s.chain_key, s.step, sk',
             refresh_lookup_cache sk' s.chain_key s.step⟩
          match trial_decrypt ms.1 crypto_blob with
          | some payload => (.ok (unpackPayload payload), s')
          | none => (.error .authFailure, s')
        else if s.step < ms.2 then
          let r := ratchetCatchUp s.chain_key s.step s.skipped_keys (ms.2 - s.step)
          let s' : QuantumDoubleRatchetReceiver :=
            ⟨s.root_key, r.chainKey, r.step, r.skipped,
             refresh_lookup_cache r.skipped r.chainKey r.step⟩
          match trial_decrypt r.msgKey crypto_blob with
          | some payload => (.ok (unpackPayload payload), s')
          | none => (.error .authFailure, s')
        else (.error .unknownBeacon, s)

/-!
Sequenced runs of the four public operations, and the deterministic
derivation chain both sides walk.
-/

/-- Encrypt a list of `(plaintext, aad, tape)` items in order with the V1
sender. -/
def runEncV1 (s : SymmetricRatchet) :
    List (Bytes × Option Bytes × (Nat → Nat)) → List Bytes × SymmetricRatchet
  | [] => ([], s)
  | it :: its =>
      let p := s.encrypt it.1 it.2.1 it.2.2
      let r := runEncV1 p.2 its
      (p.1 :: r.1, r.2)

/-- Decrypt a list of `(package, aad)` calls in order with the V1
receiver. -/
def runDecV1 (s : SymmetricRatchetReceiver) :
    List (Bytes × Option Bytes) → List (Except Err Bytes) × SymmetricRatchetReceiver
  | [] => ([], s)
  | c :: cs =>
      let p := s.decrypt c.1 c.2
      let r := runDecV1 p.2 cs
      (p.1 :: r.1, r.2)

/-- Encrypt a list of plaintexts in order with the V2 sender; the
environment of each call is indexed by the sender's step at that call. -/
def runEncV2 (s : QuantumDoubleRatchet) (envs : Nat → EnvV2) :
    List Bytes → List (Except Err Bytes) × QuantumDoubleRatchet
  | [] => ([], s)
  | pt :: pts =>
      let p := s.encrypt pt (envs s.step)
      let r := runEncV2 p.2 envs pts
      (p.1 :: r.1, r.2)

/-- Decrypt a list of packages in order with the V2 receiver. -/
def runDecV2 (s : QuantumDoubleRatchetReceiver) :
    List Bytes → List (Except Err Bytes) × QuantumDoubleRatchetReceiver
  | [] => ([], s)
  | p :: ps =>
      let q := s.decrypt p
      let r := runDecV2 q.2 ps
      (q.1 :: r.1, r.2)

/-- The chain key after `n` advances from the initial shared secret `k`
(specification-level shorthand; both sides compute exactly this). -/
def chainAt (k : List Nat) : Nat → Bytes
  | 0 => raw k
  | n + 1 => HKDF (chainAt k n) none RATCHET_INFO_CHAIN AES_KEY_SIZE

/-- The message key of step `n + 1`: derived from the chain after `n`
advances. -/
def mkAt (k : List Nat) (n : Nat) : Bytes := HKDF (chainAt k n) none RATCHET_INFO_MSG AES_KEY_SIZE

/-- The beacon of step `n + 1`. -/
def beaconAt (k : List Nat) (n : Nat) : Bytes := HKDF (mkAt k n) none MESSAGE_LOOKUP_ID 16

/-- The padded 512-byte content of a V2 packet for step `n`, message `pt`. -/
def v2Content (sid : String) (n : Nat) (e : EnvV2) (pt : Bytes) : Bytes :=
  let header_bytes := raw (strBytes (jsonHeader sid n e.ts e.uid))
  let content := u32be header_bytes.length ++ header_bytes ++ u32be pt.length ++ pt
  content ++ raw ((List.range (FIXED_PAYLOAD_SIZE - content.length)).map
    fun i => e.rnd (NONCE_SIZE + i))

/-- The V2 packet the sender emits for step `n` (1-based) of the chain
seeded by `k`, when the content fits. -/
def v2Packet (k : List Nat) (sid : String) (n : Nat) (e : EnvV2) (pt : Bytes) : Bytes :=
  let msg_key := mkAt k (n - 1)
  let aes_key := HKDF msg_key none HKDF_INFO_V2 AES_KEY_SIZE
  let nonce := raw ((List.range NONCE_SIZE).map e.rnd)
  let padded := v2Content sid n e pt
  beaconAt k (n - 1) ++ nonce ++ gcmTag aes_key nonce [] (gcmCt aes_key nonce 0 padded) ++
    gcmCt aes_key nonce 0 padded

/-- Length of the hidden header produced for the given fields. -/
def v2HeaderLen (sid : String) (n ts : Nat) (uid : String) : Nat :=
  (strBytes (jsonHeader sid n ts uid)).length

/-- The content-size condition of a V2 `encrypt` at step `n` (1-based):
`4 + |H| + 4 + |m| ≤ FIXED_PAYLOAD_SIZE`. -/
def v2Fits (sid : String) (n : Nat) (e : EnvV2) (pt : Bytes) : Prop :=
  8 + v2HeaderLen sid n e.ts e.uid + pt.length ≤ FIXED_PAYLOAD_SIZE

/-- The AAD of the `i`-th message parses to its own index or to nothing
(so the receiver's default `current_step + 1` target applies). -/
def seqOk (aad : Option Bytes) (e : Nat) : Prop :=
  aadSeq aad = none ∨ aadSeq aad = some (e : Int)

/-- Well-formedness of a V1 receiver: every skipped key is for a past
step.  Holds at construction and is preserved by `decrypt`. -/
def WfV1 (s : SymmetricRatchetReceiver) : Prop :=
  ∀ p ∈ s.skipped_keys, p.1 ≤ s.step

/-- Reachable-state invariant of the V2 receiver relative to the chain
seeded by `k`, with `rem` the (1-based) steps of `1..n` whose packets have
not yet been decrypted. -/
structure InvV2 (k : List Nat) (n : Nat) (rem : List Nat)
    (s : QuantumDoubleRatchetReceiver) : Prop where
  hstep : s.step ≤ n
  hchain : s.chain_key = chainAt k s.step
  hrem : ∀ t ∈ rem, 1 ≤ t ∧ t ≤ n
  hremnd : rem.Nodup
  hfuture : ∀ t, s.step < t → t ≤ n → t ∈ rem
  hvals : ∀ p ∈ s.skipped_keys, p.2 = mkAt k (p.1 - 1) ∧ 1 ≤ p.1
  hnd : (s.skipped_keys.map Prod.fst).Nodup
  hmem : ∀ u : Nat, (lookupSkip s.skipped_keys u).isSome ↔ u ∈ rem ∧ 1 ≤ u ∧ u ≤ s.step
  hcache : s.lookup_cache = refresh_lookup_cache s.skipped_keys s.chain_key s.step


/-- The state transition a V1 `decrypt` call performs, separated from its
result: the dispatch phase of `SymmetricRatchetReceiver.decrypt` mutates the
ratchet before any AEAD work, and the mutation depends only on the AAD, not
on the packet bytes. -/
def v1NextState (s : SymmetricRatchetReceiver) (aad : Option Bytes) : SymmetricRatchetReceiver :=
  let t := targetOfAad s.step aad
  match lookupSkipI s.skipped_keys t with
  | some _ => ⟨s.chain_key, s.step, eraseSkip s.skipped_keys t.toNat⟩
  | none =>
      if (s.step : Int) < t then
        let dist : Int := t - (s.step : Int)
        if (MAX_SKIP_RANGE : Int) < dist then s
        else if (MAX_STORED_KEYS : Int) < (s.skipped_keys.length : Int) + dist then s
        else
          let r := ratchetCatchUp s.chain_key s.step s.skipped_keys dist.toNat
          ⟨r.chainKey, r.step, r.skipped⟩
      else s

/- Injectivity and evaluation lemmas for the symbolic primitive layer. -/

theorem byteVal_blit (v : Nat) : byteVal (blit v) = v := by
  simp [byteVal, blit, Nat.unpair_pair]

theorem encList_injective : Function.Injective encList := by
  intro a
  induction a with
  | nil =>
    intro b h
    cases b with
    | nil => rfl
    | cons x l => simp [encList] at h
  | cons x l ih =>
    intro b h
    cases b with
    | nil => simp [encList] at h
    | cons y m =>
      simp only [encList, Nat.add_right_cancel_iff, Nat.pair_eq_pair] at h
      rcases h with ⟨h1, h2⟩
      exact h1 ▸ (ih h2) ▸ rfl

theorem encOpt_injective : Function.Injective encOpt := by
  intro a b h
  cases a with
  | none =>
    cases b with
    | none => rfl
    | some m => simp [encOpt] at h
  | some l =>
    cases b with
    | none => simp [encOpt] at h
    | some m =>
      simp only [encOpt, Nat.add_right_cancel_iff] at h
      exact congrArg some (encList_injective h)

theorem hkdfByte_inj {i1 i2 : Bytes} {s1 s2 : Option Bytes} {f1 f2 : Bytes}
    {n1 n2 j1 j2 : Nat} (h : hkdfByte i1 s1 f1 n1 j1 = hkdfByte i2 s2 f2 n2 j2) :
    i1 = i2 ∧ s1 = s2 ∧ f1 = f2 ∧ n1 = n2 ∧ j1 = j2 := by
  simp only [hkdfByte, Nat.pair_eq_pair] at h
  exact ⟨encList_injective h.2.1, encOpt_injective h.2.2.1,
    encList_injective h.2.2.2.1, h.2.2.2.2.1, h.2.2.2.2.2⟩

theorem HKDF_length (ikm : Bytes) (salt : Option Bytes) (info : Bytes) (n : Nat) :
    (HKDF ikm salt info n).length = n := by
  simp [HKDF]

theorem HKDF_inj {i1 i2 : Bytes} {s1 s2 : Option Bytes} {f1 f2 : Bytes} {n : Nat}
    (hn : 0 < n) (h : HKDF i1 s1 f1 n = HKDF i2 s2 f2 n) :
    i1 = i2 ∧ s1 = s2 ∧ f1 = f2 := by
  obtain ⟨m, rfl⟩ := Nat.exists_eq_succ_of_ne_zero (Nat.pos_iff_ne_zero.mp hn)
  simp only [HKDF, List.range_succ_eq_map, List.map_cons, List.cons.injEq] at h
  have := hkdfByte_inj h.1
  exact ⟨this.1, this.2.1, this.2.2.1⟩

theorem HKDF_ne_raw {ikm : Bytes} {salt : Option Bytes} {info : Bytes} {n : Nat}
    (hn : 0 < n) (l : List Nat) (hl : l ≠ []) : HKDF ikm salt info n ≠ raw l := by
  obtain ⟨m, rfl⟩ := Nat.exists_eq_succ_of_ne_zero (Nat.pos_iff_ne_zero.mp hn)
  cases l with
  | nil => exact absurd rfl hl
  | cons x xs =>
    intro h
    simp only [HKDF, List.range_succ_eq_map, List.map_cons, raw, List.cons.injEq] at h
    have : (1 : Nat) = 0 ∧ _ := Nat.pair_eq_pair.mp (h.1 : hkdfByte _ _ _ _ 0 = blit x)
    exact absurd this.1 one_ne_zero

theorem gcmCt_length (key nonce : Bytes) (i : Nat) (pt : Bytes) :
    (gcmCt key nonce i pt).length = pt.length := by
  induction pt generalizing i with
  | nil => rfl
  | cons b bs ih => simp [gcmCt, ih]

theorem gcmCt_dec (key nonce : Bytes) (i : Nat) (pt : Bytes) :
    (gcmCt key nonce i pt).map gcmCtDecByte = pt := by
  induction pt generalizing i with
  | nil => rfl
  | cons b bs ih =>
    simp [gcmCt, ih, gcmCtDecByte, gcmCtByte, Nat.unpair_pair]

theorem gcmTag_length (key nonce aad ct : Bytes) : (gcmTag key nonce aad ct).length = 16 := by
  simp [gcmTag]

theorem gcmTag_inj {k1 k2 n1 n2 a1 a2 c1 c2 : Bytes}
    (h : gcmTag k1 n1 a1 c1 = gcmTag k2 n2 a2 c2) :
    k1 = k2 ∧ n1 = n2 ∧ a1 = a2 ∧ c1 = c2 := by
  have h0 : gcmTagByte k1 n1 a1 c1 0 = gcmTagByte k2 n2 a2 c2 0 := by
    have h16 : (16 : Nat) = 15 + 1 := rfl
    rw [gcmTag, gcmTag, h16, List.range_succ_eq_map, List.map_cons, List.map_cons] at h
    exact (List.cons.injEq _ _ _ _ ▸ h).1
  simp only [gcmTagByte, Nat.pair_eq_pair] at h0
  exact ⟨encList_injective h0.2.1, encList_injective h0.2.2.1,
    encList_injective h0.2.2.2.1, encList_injective h0.2.2.2.2.1⟩

theorem decrypt_encrypt_and_digest (key nonce aad pt : Bytes) :
    decrypt_and_verify key nonce aad (encrypt_and_digest key nonce aad pt).1
      (encrypt_and_digest key nonce aad pt).2 = some pt := by
  simp [decrypt_and_verify, encrypt_and_digest, gcmCt_dec]

theorem decrypt_and_verify_fail {key1 nonce aad1 ct tag : Bytes} (key2 : Bytes) (aad2 : Bytes)
    (htag : tag = gcmTag key1 nonce aad1 ct) (hk : key1 ≠ key2 ∨ aad1 ≠ aad2) :
    decrypt_and_verify key2 nonce aad2 ct tag = none := by
  rw [decrypt_and_verify, if_neg]
  intro h
  have := gcmTag_inj (htag ▸ h)
  rcases hk with hk | hk
  · exact hk this.1
  · exact hk this.2.2.1

/-!
Helper lemmas: dictionary operations, chain-key distinctness, and the
catch-up loop.
-/

theorem raw_length (l : List Nat) : (raw l).length = l.length := by simp [raw]

theorem raw_ne_nil {l : List Nat} (h : l ≠ []) : raw l ≠ [] := by
  cases l with
  | nil => exact absurd rfl h
  | cons a t => simp [raw]

theorem lookupSkip_append (a b : List (Nat × Bytes)) (u : Nat) :
    lookupSkip (a ++ b) u =
      match lookupSkip a u with
      | some v => some v
      | none => lookupSkip b u := by
  induction a with
  | nil => simp [lookupSkip]
  | cons p l ih =>
    by_cases hp : p.1 = u
    · simp [lookupSkip, hp]
    · simp [lookupSkip, hp, ih]

theorem lookupSkip_overwrite_ne (l : List (Nat × Bytes)) (n : Nat) (v : Bytes) (u : Nat)
    (hu : u ≠ n) :
    lookupSkip (l.map fun p => if p.1 = n then (n, v) else p) u = lookupSkip l u := by
  induction l with
  | nil => rfl
  | cons p t ih =>
    by_cases hp : p.1 = n
    · simp only [List.map_cons, if_pos hp, lookupSkip]
      rw [if_neg (fun h => hu h.symm), if_neg (fun h => hu (hp ▸ h.symm)), ih]
    · simp only [List.map_cons, if_neg hp, lookupSkip]
      by_cases hpu : p.1 = u
      · simp [hpu]
      · simp [hpu, ih]

theorem lookupSkip_overwrite_eq (l : List (Nat × Bytes)) (n : Nat) (v : Bytes)
    (hm : (lookupSkip l n).isSome) :
    lookupSkip (l.map fun p => if p.1 = n then (n, v) else p) n = some v := by
  induction l with
  | nil => simp [lookupSkip] at hm
  | cons p t ih =>
    by_cases hp : p.1 = n
    · simp [lookupSkip, hp]
    · have hm' : (lookupSkip t n).isSome := by simpa [lookupSkip, hp] using hm
      simp [lookupSkip, hp, ih hm']

theorem lookupSkip_insertSkip (sk : List (Nat × Bytes)) (n : Nat) (v : Bytes) (u : Nat) :
    lookupSkip (insertSkip sk n v) u = if u = n then some v else lookupSkip sk u := by
  unfold insertSkip
  by_cases hm : (lookupSkip sk n).isSome
  · rw [if_pos hm]
    by_cases hu : u = n
    · subst hu
      rw [if_pos rfl, lookupSkip_overwrite_eq sk u v hm]
    · rw [if_neg hu, lookupSkip_overwrite_ne sk n v u hu]
  · rw [if_neg hm, lookupSkip_append]
    rw [Option.not_isSome_iff_eq_none] at hm
    by_cases hu : u = n
    · subst hu
      simp [hm, lookupSkip]
    · cases h : lookupSkip sk u with
      | some w => simp [h, hu]
      | none =>
        have hnu : ¬ n = u := fun hh => hu hh.symm
        simp [h, hu, lookupSkip, hnu]

theorem lookupSkip_eraseSkip (sk : List (Nat × Bytes)) (n u : Nat) :
    lookupSkip (eraseSkip sk n) u = if u = n then none else lookupSkip sk u := by
  induction sk with
  | nil => simp [eraseSkip, lookupSkip]
  | cons p t ih =>
    by_cases hp : p.1 = n
    · have : eraseSkip (p :: t) n = eraseSkip t n := by
        simp [eraseSkip, List.filter_cons, hp]
      rw [this, ih]
      by_cases hu : u = n
      · simp [hu]
      · rw [if_neg hu, if_neg hu, lookupSkip, if_neg (fun h => hu (h.symm.trans hp))]
    · have : eraseSkip (p :: t) n = p :: eraseSkip t n := by
        simp [eraseSkip, List.filter_cons, hp]
      rw [this]
      by_cases hpu : p.1 = u
      · rw [lookupSkip, if_pos hpu, if_neg (fun h => hp (hpu.trans h)), lookupSkip, if_pos hpu]
      · rw [lookupSkip, if_neg hpu, ih]
        by_cases hu : u = n
        · simp [hu]
        · rw [if_neg hu, if_neg hu, lookupSkip, if_neg hpu]

theorem lookupSkip_isSome_iff_mem (sk : List (Nat × Bytes)) (u : Nat) :
    (lookupSkip sk u).isSome ↔ u ∈ sk.map Prod.fst := by
  induction sk with
  | nil => simp [lookupSkip]
  | cons p t ih =>
    by_cases hp : p.1 = u
    · simp [lookupSkip, hp]
    · rw [List.map_cons, List.mem_cons]
      simp only [lookupSkip, if_neg hp, ih]
      constructor
      · exact Or.inr
      · rintro (h | h)
        · exact absurd h.symm hp
        · exact h

theorem insertSkip_length_of_absent (sk : List (Nat × Bytes)) (n : Nat) (v : Bytes)
    (h : lookupSkip sk n = none) : insertSkip sk n v = sk ++ [(n, v)] := by
  simp [insertSkip, h]

theorem clookup_append (a b : LookupCache) (x : Bytes) :
    clookup (a ++ b) x =
      match clookup a x with
      | some v => some v
      | none => clookup b x := by
  induction a with
  | nil => simp [clookup]
  | cons p l ih =>
    by_cases hp : p.1 = x
    · simp [clookup, hp]
    · simp [clookup, hp, ih]

theorem clookup_overwrite_ne (c : LookupCache) (lid key : Bytes) (seq : Nat) (b : Bytes)
    (hb : b ≠ lid) :
    clookup (c.map fun p => if p.1 = lid then (lid, key, seq) else p) b = clookup c b := by
  induction c with
  | nil => rfl
  | cons p t ih =>
    by_cases hp : p.1 = lid
    · simp only [List.map_cons, if_pos hp, clookup]
      rw [if_neg (fun h => hb h.symm), if_neg (fun h => hb (hp ▸ h.symm)), ih]
    · simp only [List.map_cons, if_neg hp, clookup]
      by_cases hpb : p.1 = b
      · simp [hpb]
      · simp [hpb, ih]

theorem clookup_overwrite_eq (c : LookupCache) (lid key : Bytes) (seq : Nat)
    (hm : (clookup c lid).isSome) :
    clookup (c.map fun p => if p.1 = lid then (lid, key, seq) else p) lid = some (key, seq) := by
  induction c with
  | nil => simp [clookup] at hm
  | cons p t ih =>
    by_cases hp : p.1 = lid
    · simp [clookup, hp]
    · have hm' : (clookup t lid).isSome := by simpa [clookup, hp] using hm
      simp [clookup, hp, ih hm']

theorem clookup_cinsert (c : LookupCache) (lid key : Bytes) (seq : Nat) (b : Bytes) :
    clookup (cinsert c lid key seq) b = if b = lid then some (key, seq) else clookup c b := by
  unfold cinsert
  by_cases hm : (clookup c lid).isSome
  · rw [if_pos hm]
    by_cases hb : b = lid
    · subst hb
      rw [if_pos rfl, clookup_overwrite_eq c b key seq hm]
    · rw [if_neg hb, clookup_overwrite_ne c lid key seq b hb]
  · rw [if_neg hm, clookup_append]
    rw [Option.not_isSome_iff_eq_none] at hm
    by_cases hb : b = lid
    · subst hb
      simp [hm, clookup]
    · cases h : clookup c b with
      | some w => simp [h, hb]
      | none =>
        have hlb : ¬ lid = b := fun hh => hb hh.symm
        simp [h, hb, clookup, hlb]

theorem chainAt_succ_ne_zero {k : List Nat} (hk : k ≠ []) (n : Nat) :
    chainAt k (n + 1) ≠ chainAt k 0 := by
  have h32 : 0 < AES_KEY_SIZE := by decide
  simpa [chainAt] using HKDF_ne_raw h32 k hk

theorem chainAt_inj {k : List Nat} (hk : k ≠ []) :
    ∀ {i j : Nat}, chainAt k i = chainAt k j → i = j := by
  intro i
  induction i with
  | zero =>
    intro j h
    cases j with
    | zero => rfl
    | succ m => exact absurd h.symm (chainAt_succ_ne_zero hk m)
  | succ m ih =>
    intro j h
    cases j with
    | zero => exact absurd h (chainAt_succ_ne_zero hk m)
    | succ l =>
      simp only [chainAt] at h
      exact congrArg Nat.succ (ih (HKDF_inj (by decide) h).1)

theorem mkAt_inj {k : List Nat} (hk : k ≠ []) {i j : Nat} (h : mkAt k i = mkAt k j) : i = j := by
  simp only [mkAt] at h
  exact chainAt_inj hk (HKDF_inj (by decide) h).1

theorem beaconAt_inj {k : List Nat} (hk : k ≠ []) {i j : Nat}
    (h : beaconAt k i = beaconAt k j) : i = j := by
  simp only [beaconAt] at h
  exact mkAt_inj hk (HKDF_inj (by decide) h).1

theorem ratchetCatchUp_step_succ (ck : Bytes) (st : Nat) (sk : List (Nat × Bytes)) (d : Nat) :
    (ratchetCatchUp ck st sk (d + 1)).step = st + (d + 1) := by
  induction d generalizing ck st sk with
  | zero => rfl
  | succ m ih =>
    rw [ratchetCatchUp, ih]
    omega

theorem ratchetCatchUp_step_ge (ck : Bytes) (st : Nat) (sk : List (Nat × Bytes)) (d : Nat) :
    st ≤ (ratchetCatchUp ck st sk d).step := by
  cases d with
  | zero => exact Nat.le_succ st
  | succ m => rw [ratchetCatchUp_step_succ]; omega

theorem ratchetCatchUp_msgKey (k : List Nat) (st : Nat) (sk : List (Nat × Bytes)) (d : Nat) :
    (ratchetCatchUp (chainAt k st) st sk (d + 1)).msgKey = mkAt k (st + d) := by
  induction d generalizing st sk with
  | zero => simp [ratchetCatchUp, mkAt]
  | succ m ih =>
    have hstep : ratchetCatchUp (chainAt k st) st sk (m + 1 + 1)
        = ratchetCatchUp (chainAt k (st + 1)) (st + 1)
            (insertSkip sk (st + 1) (mkAt k st)) (m + 1) := by
      simp [ratchetCatchUp, chainAt, mkAt]
    rw [hstep, ih]
    congr 1
    omega

theorem ratchetCatchUp_chainKey (k : List Nat) (st : Nat) (sk : List (Nat × Bytes)) (d : Nat) :
    (ratchetCatchUp (chainAt k st) st sk (d + 1)).chainKey = chainAt k (st + d + 1) := by
  induction d generalizing st sk with
  | zero => simp [ratchetCatchUp, chainAt]
  | succ m ih =>
    have hstep : ratchetCatchUp (chainAt k st) st sk (m + 1 + 1)
        = ratchetCatchUp (chainAt k (st + 1)) (st + 1)
            (insertSkip sk (st + 1) (mkAt k st)) (m + 1) := by
      simp [ratchetCatchUp, chainAt, mkAt]
    rw [hstep, ih]
    congr 1
    omega

theorem ratchetCatchUp_skipped (k : List Nat) (st : Nat) (sk : List (Nat × Bytes)) (d : Nat)
    (habs : ∀ j, st < j → j < st + d + 1 → lookupSkip sk j = none) :
    (ratchetCatchUp (chainAt k st) st sk (d + 1)).skipped
      = sk ++ (List.range d).map fun i => (st + 1 + i, mkAt k (st + i)) := by
  induction d generalizing st sk with
  | zero => simp [ratchetCatchUp]
  | succ m ih =>
    have habs1 : lookupSkip sk (st + 1) = none := habs (st + 1) (by omega) (by omega)
    have hstep : ratchetCatchUp (chainAt k st) st sk (m + 1 + 1)
        = ratchetCatchUp (chainAt k (st + 1)) (st + 1) (sk ++ [(st + 1, mkAt k st)]) (m + 1) := by
      simp [ratchetCatchUp, chainAt, mkAt, insertSkip_length_of_absent sk (st + 1) _ habs1]
    rw [hstep, ih]
    · rw [List.append_assoc]
      congr 1
      rw [List.range_succ_eq_map, List.map_cons, List.map_map, List.singleton_append]
      congr 1
      apply List.map_congr_left
      intro a _
      simp only [Function.comp_apply, Nat.succ_eq_add_one]
      have h1 : st + 1 + 1 + a = st + 1 + (a + 1) := by omega
      have h2 : st + 1 + a = st + (a + 1) := by omega
      rw [h1, h2]
    · intro j hj1 hj2
      rw [lookupSkip_append, habs j (by omega) (by omega)]
      have hne : ¬ (st + 1 = j) := by omega
      simp [lookupSkip, hne]

/-!
V1 packet round-trip: splitting `salt || nonce || ct || tag` and the
behaviour of `decrypt_message` on packets produced by `encrypt_message`.
-/

theorem decrypt_message_split (secret salt nonce ct tag : Bytes) (aad : Option Bytes)
    (hs : salt.length = SALT_SIZE) (hn : nonce.length = NONCE_SIZE)
    (ht : tag.length = TAG_SIZE) :
    decrypt_message secret (salt ++ nonce ++ ct ++ tag) aad =
      match decrypt_and_verify (HKDF secret (some salt) HKDF_INFO AES_KEY_SIZE) nonce
          (aadD aad) ct tag with
      | some pt => .ok pt
      | none => .error .authFailure := by
  have hlen : (salt ++ nonce ++ ct ++ tag).length = 44 + ct.length := by
    simp only [List.length_append, hs, hn, ht, SALT_SIZE, NONCE_SIZE, TAG_SIZE]
    omega
  have h1 : (salt ++ nonce ++ ct ++ tag).take SALT_SIZE = salt := by
    rw [List.append_assoc, List.append_assoc]
    exact List.take_left' hs
  have h2 : ((salt ++ nonce ++ ct ++ tag).drop SALT_SIZE).take NONCE_SIZE = nonce := by
    rw [List.append_assoc, List.append_assoc, List.drop_left' hs]
    exact List.take_left' hn
  have h4 : (salt ++ nonce ++ ct ++ tag).drop (SALT_SIZE + NONCE_SIZE) = ct ++ tag := by
    rw [List.append_assoc]
    exact List.drop_left' (by simp [hs, hn])
  have hb1 : (ct ++ tag).length - TAG_SIZE = ct.length := by simp [ht]
  have hb2 : (ct ++ tag).take ((ct ++ tag).length - TAG_SIZE) = ct := by
    rw [hb1]
    exact List.take_left' rfl
  have hb3 : (ct ++ tag).drop ((ct ++ tag).length - TAG_SIZE) = tag := by
    rw [hb1]
    exact List.drop_left' rfl
  simp only [decrypt_message, hlen, h1, h2, h4, hb2, hb3]
  rw [if_neg (by simp [SALT_SIZE, NONCE_SIZE, TAG_SIZE])]

theorem encrypt_message_shape (secret pt : Bytes) (aad : Option Bytes) (rnd : Nat → Nat) :
    encrypt_message secret pt aad rnd =
      raw ((List.range SALT_SIZE).map rnd) ++
        raw ((List.range NONCE_SIZE).map fun i => rnd (SALT_SIZE + i)) ++
        gcmCt (HKDF secret (some (raw ((List.range SALT_SIZE).map rnd))) HKDF_INFO AES_KEY_SIZE)
          (raw ((List.range NONCE_SIZE).map fun i => rnd (SALT_SIZE + i))) 0 pt ++
        gcmTag (HKDF secret (some (raw ((List.range SALT_SIZE).map rnd))) HKDF_INFO AES_KEY_SIZE)
          (raw ((List.range NONCE_SIZE).map fun i => rnd (SALT_SIZE + i))) (aadD aad)
          (gcmCt (HKDF secret (some (raw ((List.range SALT_SIZE).map rnd))) HKDF_INFO
            AES_KEY_SIZE) (raw ((List.range NONCE_SIZE).map fun i => rnd (SALT_SIZE + i))) 0 pt) := by
  simp only [encrypt_message, encrypt_and_digest]

theorem decrypt_message_encrypt (secret pt : Bytes) (aadE aadR : Option Bytes) (rnd : Nat → Nat)
    (ha : aadD aadR = aadD aadE) :
    decrypt_message secret (encrypt_message secret pt aadE rnd) aadR = .ok pt := by
  rw [encrypt_message_shape,
    decrypt_message_split _ _ _ _ _ _ (by simp [raw_length]) (by simp [raw_length])
      (gcmTag_length _ _ _ _), ha]
  simp [decrypt_and_verify, gcmCt_dec]

theorem decrypt_message_wrong (secret1 secret2 pt : Bytes) (aadE aadR : Option Bytes)
    (rnd : Nat → Nat) (h : secret1 ≠ secret2 ∨ aadD aadE ≠ aadD aadR) :
    decrypt_message secret2 (encrypt_message secret1 pt aadE rnd) aadR = .error .authFailure := by
  rw [encrypt_message_shape,
    decrypt_message_split _ _ _ _ _ _ (by simp [raw_length]) (by simp [raw_length])
      (gcmTag_length _ _ _ _)]
  rw [decrypt_and_verify_fail _ _ rfl]
  rcases h with h | h
  · exact Or.inl fun he => h (HKDF_inj (by decide) he).1
  · exact Or.inr h

/-!
The four dispatch branches of `SymmetricRatchetReceiver.decrypt`.
-/

theorem v1_dispatch_skipped (s : SymmetricRatchetReceiver) (pkg : Bytes) (aad : Option Bytes)
    (mkey : Bytes) (hl : lookupSkipI s.skipped_keys (targetOfAad s.step aad) = some mkey) :
    s.decrypt pkg aad = (decrypt_message mkey pkg aad,
      ⟨s.chain_key, s.step, eraseSkip s.skipped_keys (targetOfAad s.step aad).toNat⟩) := by
  simp only [SymmetricRatchetReceiver.decrypt, hl]

theorem v1_dispatch_skipTooLarge (s : SymmetricRatchetReceiver) (pkg : Bytes)
    (aad : Option Bytes) (hl : lookupSkipI s.skipped_keys (targetOfAad s.step aad) = none)
    (hbig : (MAX_SKIP_RANGE : Int) < targetOfAad s.step aad - (s.step : Int)) :
    s.decrypt pkg aad = (.error .skipTooLarge, s) := by
  have hgt : (s.step : Int) < targetOfAad s.step aad := by
    simp only [MAX_SKIP_RANGE] at hbig
    omega
  simp only [SymmetricRatchetReceiver.decrypt, hl, if_pos hgt, if_pos hbig]

theorem v1_dispatch_overflow (s : SymmetricRatchetReceiver) (pkg : Bytes)
    (aad : Option Bytes) (hl : lookupSkipI s.skipped_keys (targetOfAad s.step aad) = none)
    (hgt : (s.step : Int) < targetOfAad s.step aad)
    (hsm : targetOfAad s.step aad - (s.step : Int) ≤ (MAX_SKIP_RANGE : Int))
    (hov : (MAX_STORED_KEYS : Int) <
      (s.skipped_keys.length : Int) + (targetOfAad s.step aad - (s.step : Int))) :
    s.decrypt pkg aad = (.error .skipStoreOverflow, s) := by
  simp only [SymmetricRatchetReceiver.decrypt, hl, if_pos hgt, if_neg (not_lt.mpr hsm),
    if_pos hov]

theorem v1_dispatch_replay (s : SymmetricRatchetReceiver) (pkg : Bytes)
    (aad : Option Bytes) (hl : lookupSkipI s.skipped_keys (targetOfAad s.step aad) = none)
    (hle : targetOfAad s.step aad ≤ (s.step : Int)) :
    s.decrypt pkg aad = (.error .replayOrStale, s) := by
  simp only [SymmetricRatchetReceiver.decrypt, hl, if_neg (not_lt.mpr hle)]

theorem v1_dispatch_future (s : SymmetricRatchetReceiver) (pkg : Bytes) (aad : Option Bytes)
    (hl : lookupSkipI s.skipped_keys (targetOfAad s.step aad) = none)
    (hgt : (s.step : Int) < targetOfAad s.step aad)
    (hsm : targetOfAad s.step aad - (s.step : Int) ≤ (MAX_SKIP_RANGE : Int))
    (hst : (s.skipped_keys.length : Int) + (targetOfAad s.step aad - (s.step : Int))
      ≤ (MAX_STORED_KEYS : Int)) :
    s.decrypt pkg aad =
      (decrypt_message (ratchetCatchUp s.chain_key s.step s.skipped_keys
          (targetOfAad s.step aad - (s.step : Int)).toNat).msgKey pkg aad,
       ⟨(ratchetCatchUp s.chain_key s.step s.skipped_keys
          (targetOfAad s.step aad - (s.step : Int)).toNat).chainKey,
        (ratchetCatchUp s.chain_key s.step s.skipped_keys
          (targetOfAad s.step aad - (s.step : Int)).toNat).step,
        (ratchetCatchUp s.chain_key s.step s.skipped_keys
          (targetOfAad s.step aad - (s.step : Int)).toNat).skipped⟩) := by
  simp only [SymmetricRatchetReceiver.decrypt, hl, if_pos hgt, if_neg (not_lt.mpr hsm),
    if_neg (not_lt.mpr hst)]

/-!
V1 receiver against honest sender packets.
-/

theorem v1_decrypt_future_ok (k : List Nat) (st : Nat) (sk : List (Nat × Bytes)) (pt : Bytes)
    (aadE aadR : Option Bytes) (rnd : Nat → Nat) (tN : Nat)
    (htgt : targetOfAad st aadR = (tN : Int))
    (hgt : st < tN) (hd1 : tN - st ≤ MAX_SKIP_RANGE)
    (hd2 : sk.length + (tN - st) ≤ MAX_STORED_KEYS)
    (hns : lookupSkip sk tN = none)
    (ha : aadD aadR = aadD aadE) :
    SymmetricRatchetReceiver.decrypt ⟨chainAt k st, st, sk⟩
        (encrypt_message (mkAt k (tN - 1)) pt aadE rnd) aadR
      = (.ok pt,
         ⟨chainAt k tN, tN, (ratchetCatchUp (chainAt k st) st sk (tN - st)).skipped⟩) := by
  have hl : lookupSkipI sk (targetOfAad st aadR) = none := by
    rw [htgt, lookupSkipI, if_pos (by positivity)]
    simpa using hns
  have hd : (targetOfAad st aadR - (st : Int)).toNat = tN - st := by
    rw [htgt]
    omega
  have hsplit : tN - st = (tN - st - 1) + 1 := by omega
  have hgt' : ((st : Nat) : Int) < targetOfAad st aadR := by
    rw [htgt]
    exact_mod_cast hgt
  have hsm : targetOfAad st aadR - (st : Int) ≤ (MAX_SKIP_RANGE : Int) := by
    rw [htgt]
    simp only [MAX_SKIP_RANGE] at hd1 ⊢
    omega
  have hst : ((sk.length : Int)) + (targetOfAad st aadR - (st : Int))
      ≤ (MAX_STORED_KEYS : Int) := by
    rw [htgt]
    simp only [MAX_STORED_KEYS] at hd2 ⊢
    omega
  rw [v1_dispatch_future ⟨chainAt k st, st, sk⟩ _ aadR hl hgt' hsm hst]
  have e1 : (ratchetCatchUp (chainAt k st) st sk
      (targetOfAad st aadR - (st : Int)).toNat).msgKey = mkAt k (tN - 1) := by
    rw [hd, hsplit, ratchetCatchUp_msgKey]
    congr 1
    omega
  have e2 : (ratchetCatchUp (chainAt k st) st sk
      (targetOfAad st aadR - (st : Int)).toNat).chainKey = chainAt k tN := by
    rw [hd, hsplit, ratchetCatchUp_chainKey]
    congr 1
    omega
  have e3 : (ratchetCatchUp (chainAt k st) st sk
      (targetOfAad st aadR - (st : Int)).toNat).step = tN := by
    rw [hd, hsplit, ratchetCatchUp_step_succ]
    omega
  have e4 : (ratchetCatchUp (chainAt k st) st sk
      (targetOfAad st aadR - (st : Int)).toNat).skipped
      = (ratchetCatchUp (chainAt k st) st sk (tN - st)).skipped := by
    rw [hd]
  rw [e1, e2, e3, e4, decrypt_message_encrypt _ _ _ _ _ ha]

theorem targetOfAad_of_seqOk (st : Nat) (aad : Option Bytes) (h : seqOk aad (st + 1)) :
    targetOfAad st aad = ((st + 1 : Nat) : Int) := by
  unfold targetOfAad
  rcases h with h | h
  · rw [h, Option.getD_none]
    push_cast
    ring
  · rw [h, Option.getD_some]

theorem v1_sender_step (k : List Nat) (st : Nat) (pt : Bytes) (aad : Option Bytes)
    (rnd : Nat → Nat) :
    SymmetricRatchet.encrypt ⟨chainAt k st, st⟩ pt aad rnd
      = (encrypt_message (mkAt k st) pt aad rnd, ⟨chainAt k (st + 1), st + 1⟩) := by
  simp [SymmetricRatchet.encrypt, SymmetricRatchet.advance, mkAt, chainAt]

theorem v1_run_in_order (k : List Nat) (st : Nat)
    (items : List (Bytes × Option Bytes × (Nat → Nat)))
    (hseq : ∀ i, i < items.length →
      seqOk (items.getD i ([], none, fun _ => 0)).2.1 (st + i + 1)) :
    runDecV1 ⟨chainAt k st, st, []⟩
        ((runEncV1 ⟨chainAt k st, st⟩ items).1.zip (items.map fun it => it.2.1))
      = (items.map fun it => Except.ok it.1,
         ⟨chainAt k (st + items.length), st + items.length, []⟩) := by
  induction items generalizing st with
  | nil => simp [runEncV1, runDecV1]
  | cons it its ih =>
    obtain ⟨pt, aad, rnd⟩ := it
    have h0 : seqOk aad (st + 1) := by
      have := hseq 0 (by simp)
      simpa using this
    have htgt : targetOfAad st aad = ((st + 1 : Nat) : Int) := targetOfAad_of_seqOk st aad h0
    have hdec : SymmetricRatchetReceiver.decrypt ⟨chainAt k st, st, []⟩
        (encrypt_message (mkAt k st) pt aad rnd) aad
        = (.ok pt, ⟨chainAt k (st + 1), st + 1, []⟩) := by
      have hfut := v1_decrypt_future_ok k st [] pt aad aad rnd (st + 1) htgt (by omega)
        (by simp [MAX_SKIP_RANGE]) (by simp [MAX_STORED_KEYS]) rfl rfl
      have harith : st + 1 - st = 1 := by omega
      have hm : st + 1 - 1 = st := by omega
      rw [hm, harith] at hfut
      exact hfut
    simp only [runEncV1, v1_sender_step, List.map_cons, List.zip_cons_cons, runDecV1, hdec]
    have hseq' : ∀ i, i < its.length →
        seqOk (its.getD i ([], none, fun _ => 0)).2.1 (st + 1 + i + 1) := by
      intro i hi
      have := hseq (i + 1) (by simpa using Nat.succ_lt_succ hi)
      have harith : st + (i + 1) + 1 = st + 1 + i + 1 := by omega
      rw [List.getD_cons_succ, harith] at this
      exact this
    have ih' := ih (st + 1) hseq'
    simp only [List.zip] at ih'
    rw [ih']
    simp only [List.length_cons]
    have harith : st + 1 + its.length = st + (its.length + 1) := by omega
    rw [harith]

/-!
V2 packets: content layout, unpacking, and the sender's step behaviour.
-/

theorem from_bytes_u32 (n : Nat) (h : n < 4294967296) : from_bytes_be (u32be n) = n := by
  simp only [from_bytes_be, u32be, List.foldl_cons, List.foldl_nil, byteVal_blit]
  omega

theorem unpack_core (hb mb pad : Bytes) (h1 : hb.length < 4294967296)
    (h2 : mb.length < 4294967296) :
    unpackPayload (u32be hb.length ++ hb ++ u32be mb.length ++ mb ++ pad) = mb := by
  have t1 : (u32be hb.length ++ hb ++ u32be mb.length ++ mb ++ pad).take 4 = u32be hb.length := by
    have hP : u32be hb.length ++ hb ++ u32be mb.length ++ mb ++ pad
        = u32be hb.length ++ (hb ++ (u32be mb.length ++ (mb ++ pad))) := by
      simp [List.append_assoc]
    rw [hP]
    exact List.take_left' (by simp [u32be])
  have t2 : (u32be hb.length ++ hb ++ u32be mb.length ++ mb ++ pad).drop (4 + hb.length)
      = u32be mb.length ++ (mb ++ pad) := by
    have hP : u32be hb.length ++ hb ++ u32be mb.length ++ mb ++ pad
        = (u32be hb.length ++ hb) ++ (u32be mb.length ++ (mb ++ pad)) := by
      simp [List.append_assoc]
    rw [hP]
    exact List.drop_left' (by simp [u32be]; omega)
  have t3 : (u32be hb.length ++ hb ++ u32be mb.length ++ mb ++ pad).drop (4 + hb.length + 4)
      = mb ++ pad := by
    have hP : u32be hb.length ++ hb ++ u32be mb.length ++ mb ++ pad
        = (u32be hb.length ++ hb ++ u32be mb.length) ++ (mb ++ pad) := by
      simp [List.append_assoc]
    rw [hP]
    exact List.drop_left' (by simp [u32be]; omega)
  have t4 : (u32be mb.length ++ (mb ++ pad)).take 4 = u32be mb.length :=
    List.take_left' (by simp [u32be])
  simp only [unpackPayload, t1, from_bytes_u32 _ h1, t2, t4, from_bytes_u32 _ h2, t3]
  exact List.take_left' rfl

theorem v2HeaderLen_raw (sid : String) (n : Nat) (e : EnvV2) :
    (raw (strBytes (jsonHeader sid n e.ts e.uid))).length = v2HeaderLen sid n e.ts e.uid := by
  simp [raw_length, v2HeaderLen]

theorem v2Content_shape (sid : String) (n : Nat) (e : EnvV2) (pt : Bytes) :
    v2Content sid n e pt =
      u32be (raw (strBytes (jsonHeader sid n e.ts e.uid))).length ++
        raw (strBytes (jsonHeader sid n e.ts e.uid)) ++ u32be pt.length ++ pt ++
        raw ((List.range (FIXED_PAYLOAD_SIZE -
          (u32be (raw (strBytes (jsonHeader sid n e.ts e.uid))).length ++
            raw (strBytes (jsonHeader sid n e.ts e.uid)) ++ u32be pt.length ++ pt).length)).map
          fun i => e.rnd (NONCE_SIZE + i)) := by
  simp only [v2Content]

theorem v2Content_length (sid : String) (n : Nat) (e : EnvV2) (pt : Bytes)
    (hfit : v2Fits sid n e pt) : (v2Content sid n e pt).length = FIXED_PAYLOAD_SIZE := by
  have h := hfit
  unfold v2Fits at h
  unfold v2HeaderLen at h
  simp only [v2Content, List.length_append, raw, List.length_map, List.length_range, u32be,
    List.length_cons, List.length_nil]
  simp only [FIXED_PAYLOAD_SIZE] at h ⊢
  omega

theorem unpack_v2Content (sid : String) (n : Nat) (e : EnvV2) (pt : Bytes)
    (hfit : v2Fits sid n e pt) : unpackPayload (v2Content sid n e pt) = pt := by
  have h := hfit
  unfold v2Fits at h
  have hH : (raw (strBytes (jsonHeader sid n e.ts e.uid))).length < 4294967296 := by
    rw [v2HeaderLen_raw]
    unfold FIXED_PAYLOAD_SIZE at h
    omega
  have hpt : pt.length < 4294967296 := by
    unfold FIXED_PAYLOAD_SIZE at h
    omega
  rw [v2Content_shape]
  exact unpack_core _ _ _ hH hpt

theorem v2_sender_step (k : List Nat) (rk : Bytes) (sid : String) (st : Nat) (pt : Bytes)
    (e : EnvV2) (hfit : v2Fits sid (st + 1) e pt) :
    QuantumDoubleRatchet.encrypt ⟨rk, chainAt k st, st, sid⟩ pt e
      = (.ok (v2Packet k sid (st + 1) e pt), ⟨rk, chainAt k (st + 1), st + 1, sid⟩) := by
  have hc : ¬ (FIXED_PAYLOAD_SIZE <
      (u32be (raw (strBytes (jsonHeader sid (st + 1) e.ts e.uid))).length ++
        raw (strBytes (jsonHeader sid (st + 1) e.ts e.uid)) ++ u32be pt.length ++ pt).length) := by
    have h := hfit
    unfold v2Fits at h
    unfold v2HeaderLen at h
    simp only [List.length_append, raw, List.length_map, u32be, List.length_cons,
      List.length_nil, not_lt]
    simp only [FIXED_PAYLOAD_SIZE] at h ⊢
    omega
  simp only [QuantumDoubleRatchet.encrypt]
  rw [if_neg hc]
  simp only [v2Packet, Nat.add_sub_cancel, v2Content, beaconAt, mkAt, chainAt,
    encrypt_and_digest]

theorem v2_run_enc (k : List Nat) (rk : Bytes) (sid : String) (envs : Nat → EnvV2)
    (pts : List Bytes) (st : Nat)
    (hfit : ∀ i, i < pts.length → v2Fits sid (st + i + 1) (envs (st + i)) (pts.getD i [])) :
    runEncV2 ⟨rk, chainAt k st, st, sid⟩ envs pts
      = ((List.range pts.length).map fun i =>
          Except.ok (v2Packet k sid (st + i + 1) (envs (st + i)) (pts.getD i [])),
         ⟨rk, chainAt k (st + pts.length), st + pts.length, sid⟩) := by
  induction pts generalizing st with
  | nil => simp [runEncV2]
  | cons pt pts ih =>
    have h0 : v2Fits sid (st + 1) (envs st) pt := by
      have := hfit 0 (by simp)
      simpa using this
    have hstep := v2_sender_step k rk sid st pt (envs st) h0
    simp only [runEncV2, hstep]
    have hfit' : ∀ i, i < pts.length →
        v2Fits sid (st + 1 + i + 1) (envs (st + 1 + i)) (pts.getD i []) := by
      intro i hi
      have := hfit (i + 1) (by simpa using Nat.succ_lt_succ hi)
      have ha : st + (i + 1) = st + 1 + i := by omega
      rw [List.getD_cons_succ, ha] at this
      exact this
    rw [ih (st + 1) hfit']
    simp only [List.length_cons, List.range_succ_eq_map, List.map_cons, List.map_map,
      Prod.mk.injEq, List.cons.injEq]
    refine ⟨⟨by simp, ?_⟩, ?_⟩
    · apply List.map_congr_left
      intro i _
      simp only [Function.comp_apply, Nat.succ_eq_add_one, List.getD_cons_succ]
      have h1 : st + (i + 1) + 1 = st + 1 + i + 1 := by omega
      have h2 : st + (i + 1) = st + 1 + i := by omega
      rw [h1, h2]
    · have h3 : st + 1 + pts.length = st + (pts.length + 1) := by omega
      rw [h3]

/-!
The V2 lookup cache: what `_refresh_lookup_cache` stores, and what a
beacon lookup returns.
-/

theorem lookaheadFill_step (k : List Nat) (c : LookupCache) (st n : Nat) :
    lookaheadFill c (chainAt k st) st (n + 1)
      = lookaheadFill (cinsert c (beaconAt k st) (mkAt k st) (st + 1))
          (chainAt k (st + 1)) (st + 1) n := by
  simp only [lookaheadFill, beaconAt, mkAt, chainAt]

theorem clookup_lookaheadFill_ne (k : List Nat) (c : LookupCache) (st m : Nat) (b : Bytes)
    (h : ∀ j, j < m → b ≠ beaconAt k (st + j)) :
    clookup (lookaheadFill c (chainAt k st) st m) b = clookup c b := by
  induction m generalizing c st with
  | zero => rfl
  | succ n ih =>
    rw [lookaheadFill_step, ih]
    · rw [clookup_cinsert, if_neg (by simpa using h 0 (by omega))]
    · intro j hj
      have := h (j + 1) (by omega)
      have ha : st + (j + 1) = st + 1 + j := by omega
      rwa [ha] at this

theorem clookup_lookaheadFill_hit (k : List Nat) (hk : k ≠ []) (c : LookupCache)
    (st m j0 : Nat) (hj : j0 < m) :
    clookup (lookaheadFill c (chainAt k st) st m) (beaconAt k (st + j0))
      = some (mkAt k (st + j0), st + j0 + 1) := by
  induction m generalizing c st j0 with
  | zero => omega
  | succ n ih =>
    rw [lookaheadFill_step]
    cases j0 with
    | zero =>
      rw [clookup_lookaheadFill_ne k _ (st + 1) n _ ?hne]
      case hne =>
        intro j hj heq
        have := beaconAt_inj hk heq
        omega
      rw [clookup_cinsert, if_pos (by simp)]
      simp
    | succ l =>
      have := ih (cinsert c (beaconAt k st) (mkAt k st) (st + 1)) (st + 1) l (by omega)
      have ha : st + 1 + l = st + (l + 1) := by omega
      rwa [ha] at this

attribute [irreducible] lookaheadFill

theorem clookup_skfold (k : List Nat) (hk : k ≠ []) (sk : List (Nat × Bytes)) (c : LookupCache)
    (hvals : ∀ p ∈ sk, p.2 = mkAt k (p.1 - 1) ∧ 1 ≤ p.1)
    (hnd : (sk.map Prod.fst).Nodup) (t : Nat) (ht : 1 ≤ t) :
    clookup (sk.foldl (fun c p => cinsert c (HKDF p.2 none MESSAGE_LOOKUP_ID 16) p.2 p.1) c)
        (beaconAt k (t - 1))
      = if (lookupSkip sk t).isSome then some (mkAt k (t - 1), t)
        else clookup c (beaconAt k (t - 1)) := by
  induction sk generalizing c with
  | nil => simp [lookupSkip]
  | cons p rest ih =>
    obtain ⟨hpv, hp1⟩ := hvals p (List.mem_cons_self p rest)
    have hvals' : ∀ q ∈ rest, q.2 = mkAt k (q.1 - 1) ∧ 1 ≤ q.1 :=
      fun q hq => hvals q (List.mem_cons_of_mem p hq)
    have hnd2 : p.1 ∉ rest.map Prod.fst ∧ (rest.map Prod.fst).Nodup := by
      rw [List.map_cons, List.nodup_cons] at hnd
      exact hnd
    have hbeacon : HKDF p.2 none MESSAGE_LOOKUP_ID 16 = beaconAt k (p.1 - 1) := by
      rw [hpv]
      rfl
    rw [List.foldl_cons, hbeacon, ih _ hvals' hnd2.2]
    by_cases hpt : p.1 = t
    · have hrest : lookupSkip rest t = none := by
        rw [← Option.not_isSome_iff_eq_none, lookupSkip_isSome_iff_mem]
        rw [hpt] at hnd2
        exact hnd2.1
      rw [lookupSkip, if_pos hpt, hrest]
      simp only [Option.isSome_none, Bool.false_eq_true, if_false, Option.isSome_some, if_true]
      rw [clookup_cinsert, hpt, if_pos rfl, hpv, hpt]
    · have hbne : beaconAt k (t - 1) ≠ beaconAt k (p.1 - 1) := by
        intro heq
        have := beaconAt_inj hk heq
        omega
      rw [lookupSkip, if_neg hpt]
      by_cases hr : (lookupSkip rest t).isSome
      · simp [hr]
      · simp only [hr, Bool.false_eq_true, if_false]
        rw [clookup_cinsert, if_neg hbne]

theorem clookup_refresh (k : List Nat) (hk : k ≠ []) (sk : List (Nat × Bytes)) (st : Nat)
    (hvals : ∀ p ∈ sk, p.2 = mkAt k (p.1 - 1) ∧ 1 ≤ p.1)
    (hnd : (sk.map Prod.fst).Nodup) (hkeys : ∀ p ∈ sk, p.1 ≤ st) (t : Nat) (ht : 1 ≤ t)
    (hcase : (lookupSkip sk t).isSome ∨ (st < t ∧ t ≤ st + MAX_SKIP)) :
    clookup (refresh_lookup_cache sk (chainAt k st) st) (beaconAt k (t - 1))
      = some (mkAt k (t - 1), t) := by
  unfold refresh_lookup_cache
  rcases hcase with hcase | hcase
  · have hts : t ≤ st := by
      have hmem := (lookupSkip_isSome_iff_mem sk t).mp hcase
      obtain ⟨q, hq, hq1⟩ := List.mem_map.mp hmem
      exact hq1 ▸ hkeys q hq
    rw [clookup_lookaheadFill_ne k _ st MAX_SKIP _ ?hne]
    case hne =>
      intro j hj heq
      have := beaconAt_inj hk heq
      omega
    rw [clookup_skfold k hk sk [] hvals hnd t ht, if_pos hcase]
  · obtain ⟨h1, h2⟩ := hcase
    have harr : st + (t - 1 - st) = t - 1 := by omega
    have := clookup_lookaheadFill_hit k hk
      (sk.foldl (fun c p => cinsert c (HKDF p.2 none MESSAGE_LOOKUP_ID 16) p.2 p.1) [])
      st MAX_SKIP (t - 1 - st) (by unfold MAX_SKIP at h2 ⊢; omega)
    rw [harr] at this
    have ht2 : t - 1 + 1 = t := by omega
    rw [ht2] at this
    exact this

/-!
Shape facts for honest V2 packets, and the dispatch branches of
`QuantumDoubleRatchetReceiver.decrypt`.
-/

theorem beaconAt_length (k : List Nat) (n : Nat) : (beaconAt k n).length = 16 :=
  HKDF_length _ _ _ _

theorem v2Packet_split (k : List Nat) (sid : String) (t : Nat) (e : EnvV2) (pt : Bytes) :
    v2Packet k sid t e pt = beaconAt k (t - 1) ++
      (raw ((List.range NONCE_SIZE).map e.rnd) ++
        gcmTag (HKDF (mkAt k (t - 1)) none HKDF_INFO_V2 AES_KEY_SIZE)
          (raw ((List.range NONCE_SIZE).map e.rnd)) []
          (gcmCt (HKDF (mkAt k (t - 1)) none HKDF_INFO_V2 AES_KEY_SIZE)
            (raw ((List.range NONCE_SIZE).map e.rnd)) 0 (v2Content sid t e pt)) ++
        gcmCt (HKDF (mkAt k (t - 1)) none HKDF_INFO_V2 AES_KEY_SIZE)
          (raw ((List.range NONCE_SIZE).map e.rnd)) 0 (v2Content sid t e pt)) := by
  simp only [v2Packet, List.append_assoc]

theorem v2Packet_take (k : List Nat) (sid : String) (t : Nat) (e : EnvV2) (pt : Bytes) :
    (v2Packet k sid t e pt).take 16 = beaconAt k (t - 1) := by
  rw [v2Packet_split]
  exact List.take_left' (beaconAt_length k (t - 1))

theorem v2Packet_drop (k : List Nat) (sid : String) (t : Nat) (e : EnvV2) (pt : Bytes) :
    (v2Packet k sid t e pt).drop 16 =
      raw ((List.range NONCE_SIZE).map e.rnd) ++
        gcmTag (HKDF (mkAt k (t - 1)) none HKDF_INFO_V2 AES_KEY_SIZE)
          (raw ((List.range NONCE_SIZE).map e.rnd)) []
          (gcmCt (HKDF (mkAt k (t - 1)) none HKDF_INFO_V2 AES_KEY_SIZE)
            (raw ((List.range NONCE_SIZE).map e.rnd)) 0 (v2Content sid t e pt)) ++
        gcmCt (HKDF (mkAt k (t - 1)) none HKDF_INFO_V2 AES_KEY_SIZE)
          (raw ((List.range NONCE_SIZE).map e.rnd)) 0 (v2Content sid t e pt) := by
  rw [v2Packet_split, List.drop_left' (beaconAt_length k (t - 1))]

theorem v2Packet_length (k : List Nat) (sid : String) (t : Nat) (e : EnvV2) (pt : Bytes)
    (hfit : v2Fits sid t e pt) : (v2Packet k sid t e pt).length = 556 := by
  simp only [v2Packet, List.length_append, beaconAt_length, raw_length, List.length_map,
    List.length_range, gcmTag_length, gcmCt_length, v2Content_length sid t e pt hfit,
    HKDF_length]
  simp [NONCE_SIZE, FIXED_PAYLOAD_SIZE]

theorem trial_decrypt_split (msg_key nonce tag ct : Bytes) (hn : nonce.length = NONCE_SIZE)
    (ht : tag.length = TAG_SIZE) :
    trial_decrypt msg_key (nonce ++ tag ++ ct)
      = decrypt_and_verify (HKDF msg_key none HKDF_INFO_V2 AES_KEY_SIZE) nonce [] ct tag := by
  have h1 : (nonce ++ tag ++ ct).take NONCE_SIZE = nonce := by
    rw [List.append_assoc]
    exact List.take_left' hn
  have h2 : ((nonce ++ tag ++ ct).drop NONCE_SIZE).take TAG_SIZE = tag := by
    rw [List.append_assoc, List.drop_left' hn]
    exact List.take_left' ht
  have h3 : (nonce ++ tag ++ ct).drop (NONCE_SIZE + TAG_SIZE) = ct :=
    List.drop_left' (by simp [hn, ht])
  simp only [trial_decrypt, h1, h2, h3]

theorem trial_decrypt_honest (msg_key padded nonce : Bytes) (hn : nonce.length = NONCE_SIZE) :
    trial_decrypt msg_key
      (nonce ++
        gcmTag (HKDF msg_key none HKDF_INFO_V2 AES_KEY_SIZE) nonce []
          (gcmCt (HKDF msg_key none HKDF_INFO_V2 AES_KEY_SIZE) nonce 0 padded) ++
        gcmCt (HKDF msg_key none HKDF_INFO_V2 AES_KEY_SIZE) nonce 0 padded)
      = some padded := by
  rw [trial_decrypt_split _ _ _ _ hn (gcmTag_length _ _ _ _)]
  simpa [encrypt_and_digest] using
    decrypt_encrypt_and_digest (HKDF msg_key none HKDF_INFO_V2 AES_KEY_SIZE) nonce [] padded

theorem v2_dispatch_caseA (s : QuantumDoubleRatchetReceiver) (pkg : Bytes) (mkey : Bytes)
    (t : Nat) (hlen : ¬ pkg.length < 16 + NONCE_SIZE + TAG_SIZE)
    (hcl : clookup s.lookup_cache (pkg.take 16) = some (mkey, t))
    (hsk : (lookupSkip s.skipped_keys t).isSome) :
    s.decrypt pkg =
      (match trial_decrypt mkey (pkg.drop 16) with
        | some payload => .ok (unpackPayload payload)
        | none => .error .authFailure,
       ⟨s.root_key, s.chain_key, s.step, eraseSkip s.skipped_keys t,
        refresh_lookup_cache (eraseSkip s.skipped_keys t) s.chain_key s.step⟩) := by
  simp only [QuantumDoubleRatchetReceiver.decrypt, if_neg hlen, hcl, hsk, if_true]
  cases trial_decrypt mkey (pkg.drop 16) <;> rfl

theorem v2_dispatch_caseB (s : QuantumDoubleRatchetReceiver) (pkg : Bytes) (mkey : Bytes)
    (t : Nat) (hlen : ¬ pkg.length < 16 + NONCE_SIZE + TAG_SIZE)
    (hcl : clookup s.lookup_cache (pkg.take 16) = some (mkey, t))
    (hsk : (lookupSkip s.skipped_keys t).isSome = false) (hlt : s.step < t) :
    s.decrypt pkg =
      (match trial_decrypt (ratchetCatchUp s.chain_key s.step s.skipped_keys
          (t - s.step)).msgKey (pkg.drop 16) with
        | some payload => .ok (unpackPayload payload)
        | none => .error .authFailure,
       ⟨s.root_key,
        (ratchetCatchUp s.chain_key s.step s.skipped_keys (t - s.step)).chainKey,
        (ratchetCatchUp s.chain_key s.step s.skipped_keys (t - s.step)).step,
        (ratchetCatchUp s.chain_key s.step s.skipped_keys (t - s.step)).skipped,
        refresh_lookup_cache
          (ratchetCatchUp s.chain_key s.step s.skipped_keys (t - s.step)).skipped
          (ratchetCatchUp s.chain_key s.step s.skipped_keys (t - s.step)).chainKey
          (ratchetCatchUp s.chain_key s.step s.skipped_keys (t - s.step)).step⟩) := by
  simp only [QuantumDoubleRatchetReceiver.decrypt, if_neg hlen, hcl, hsk, Bool.false_eq_true,
    if_false, if_pos hlt]
  cases trial_decrypt (ratchetCatchUp s.chain_key s.step s.skipped_keys
    (t - s.step)).msgKey (pkg.drop 16) <;> rfl

theorem v2_dispatch_stale (s : QuantumDoubleRatchetReceiver) (pkg : Bytes) (mkey : Bytes)
    (t : Nat) (hlen : ¬ pkg.length < 16 + NONCE_SIZE + TAG_SIZE)
    (hcl : clookup s.lookup_cache (pkg.take 16) = some (mkey, t))
    (hsk : (lookupSkip s.skipped_keys t).isSome = false) (hge : ¬ s.step < t) :
    s.decrypt pkg = (.error .unknownBeacon, s) := by
  simp only [QuantumDoubleRatchetReceiver.decrypt, if_neg hlen, hcl, hsk, Bool.false_eq_true,
    if_false, if_neg hge]

theorem v2_dispatch_nobeacon (s : QuantumDoubleRatchetReceiver) (pkg : Bytes)
    (hlen : ¬ pkg.length < 16 + NONCE_SIZE + TAG_SIZE)
    (hcl : clookup s.lookup_cache (pkg.take 16) = none) :
    s.decrypt pkg = (.error .unknownBeacon, s) := by
  simp only [QuantumDoubleRatchetReceiver.decrypt, if_neg hlen, hcl]

/-!
One V2 decrypt call on an honest packet, preserving the receiver
invariant.
-/

theorem lookupSkip_append_isSome (a b : List (Nat × Bytes)) (u : Nat) :
    (lookupSkip (a ++ b) u).isSome
      ↔ (lookupSkip a u).isSome ∨ (lookupSkip b u).isSome := by
  rw [lookupSkip_append]
  cases lookupSkip a u <;> simp

theorem rangeKeys_fst (st d : Nat) (f : Nat → Bytes) :
    (((List.range d).map fun i => (st + 1 + i, f i)).map Prod.fst)
      = (List.range d).map fun i => st + 1 + i := by
  rw [List.map_map]
  rfl

theorem rangeKeys_mem (st d u : Nat) (f : Nat → Bytes) :
    (u ∈ ((List.range d).map fun i => (st + 1 + i, f i)).map Prod.fst)
      ↔ st + 1 ≤ u ∧ u < st + 1 + d := by
  rw [rangeKeys_fst]
  simp only [List.mem_map, List.mem_range]
  constructor
  · rintro ⟨i, hi, rfl⟩
    omega
  · rintro ⟨h1, h2⟩
    exact ⟨u - (st + 1), by omega, by omega⟩

theorem rangeKeys_nodup (st d : Nat) (f : Nat → Bytes) :
    ((((List.range d).map fun i => (st + 1 + i, f i)).map Prod.fst)).Nodup := by
  rw [rangeKeys_fst]
  exact (List.nodup_range d).map fun a b h => by omega

set_option maxRecDepth 8000 in
theorem v2_decrypt_step (k : List Nat) (hk32 : k.length = 32) (n : Nat)
    (rem : List Nat) (s : QuantumDoubleRatchetReceiver) (inv : InvV2 k n rem s)
    (t : Nat) (htrem : t ∈ rem) (hwin : t ≤ s.step + MAX_SKIP)
    (sid : String) (e : EnvV2) (pt : Bytes) (hfit : v2Fits sid t e pt) :
    ∃ s', s.decrypt (v2Packet k sid t e pt) = (.ok pt, s') ∧
      InvV2 k n (rem.erase t) s' ∧ s'.step = max s.step t ∧
      (s.step < t →
        s'.skipped_keys.length + 1 = s.skipped_keys.length + (t - s.step)) := by
  have hk : k ≠ [] := by
    intro h
    rw [h] at hk32
    exact absurd hk32 (by decide)
  obtain ⟨ht1, htn⟩ := inv.hrem t htrem
  have hlen : ¬ (v2Packet k sid t e pt).length < 16 + NONCE_SIZE + TAG_SIZE := by
    rw [v2Packet_length k sid t e pt hfit]
    simp [NONCE_SIZE, TAG_SIZE]
  have hkeys : ∀ p ∈ s.skipped_keys, p.1 ≤ s.step := by
    intro p hp
    have hmem : (lookupSkip s.skipped_keys p.1).isSome := by
      rw [lookupSkip_isSome_iff_mem]
      exact List.mem_map_of_mem Prod.fst hp
    exact ((inv.hmem p.1).mp hmem).2.2
  have hcl : clookup s.lookup_cache ((v2Packet k sid t e pt).take 16)
      = some (mkAt k (t - 1), t) := by
    rw [v2Packet_take, inv.hcache, inv.hchain]
    refine clookup_refresh k hk _ _ inv.hvals inv.hnd hkeys t ht1 ?_
    by_cases hts : t ≤ s.step
    · exact Or.inl ((inv.hmem t).mpr ⟨htrem, ht1, hts⟩)
    · exact Or.inr ⟨by omega, hwin⟩
  by_cases hts : t ≤ s.step
  · have hsk : (lookupSkip s.skipped_keys t).isSome := (inv.hmem t).mpr ⟨htrem, ht1, hts⟩
    have hd := v2_dispatch_caseA s _ _ t hlen hcl hsk
    rw [v2Packet_drop, trial_decrypt_honest _ _ _ (by simp [raw_length])] at hd
    rw [show (match some (v2Content sid t e pt) with
      | some payload => Except.ok (unpackPayload payload)
      | none => (Except.error Err.authFailure : Except Err Bytes))
      = Except.ok (unpackPayload (v2Content sid t e pt)) from rfl,
      unpack_v2Content sid t e pt hfit] at hd
    refine ⟨_, hd, ?_, (max_eq_left hts).symm, fun h => absurd h (by omega)⟩
    constructor
    · exact inv.hstep
    · exact inv.hchain
    · exact fun u hu => inv.hrem u (List.mem_of_mem_erase hu)
    · exact inv.hremnd.erase t
    · intro u hgt hun
      replace hgt : s.step < u := hgt
      rw [List.mem_erase_of_ne (by omega : u ≠ t)]
      exact inv.hfuture u hgt hun
    · exact fun p hp => inv.hvals p (List.mem_of_mem_filter hp)
    · exact List.Nodup.sublist (List.Sublist.map Prod.fst (List.filter_sublist _)) inv.hnd
    · intro u
      show (lookupSkip (eraseSkip s.skipped_keys t) u).isSome = true
        ↔ u ∈ rem.erase t ∧ 1 ≤ u ∧ u ≤ s.step
      rw [lookupSkip_eraseSkip]
      by_cases hu : u = t
      · subst hu
        rw [if_pos rfl]
        constructor
        · intro h
          exact absurd h (by simp)
        · rintro ⟨h1, -⟩
          exact absurd h1
            ((not_congr (List.Nodup.mem_erase_iff inv.hremnd)).mpr (by simp))
      · rw [if_neg hu, inv.hmem u, List.mem_erase_of_ne hu]
    · show refresh_lookup_cache (eraseSkip s.skipped_keys t) s.chain_key s.step
        = refresh_lookup_cache (eraseSkip s.skipped_keys t) s.chain_key s.step
      rfl
  · have hlt : s.step < t := by omega
    have hskF : (lookupSkip s.skipped_keys t).isSome = false := by
      cases h : (lookupSkip s.skipped_keys t).isSome
      · rfl
      · have := ((inv.hmem t).mp h).2.2
        omega
    have hd := v2_dispatch_caseB s _ _ t hlen hcl hskF hlt
    rw [inv.hchain] at hd
    have hfuel : t - s.step = (t - s.step - 1) + 1 := by omega
    have hmk : (ratchetCatchUp (chainAt k s.step) s.step s.skipped_keys (t - s.step)).msgKey
        = mkAt k (t - 1) := by
      rw [hfuel, ratchetCatchUp_msgKey]
      congr 1
      omega
    have hck : (ratchetCatchUp (chainAt k s.step) s.step s.skipped_keys (t - s.step)).chainKey
        = chainAt k t := by
      rw [hfuel, ratchetCatchUp_chainKey]
      congr 1
      omega
    have hstp : (ratchetCatchUp (chainAt k s.step) s.step s.skipped_keys (t - s.step)).step
        = t := by
      rw [hfuel, ratchetCatchUp_step_succ]
      omega
    have habs : ∀ j, s.step < j → j < s.step + (t - s.step - 1) + 1 →
        lookupSkip s.skipped_keys j = none := by
      intro j hj1 hj2
      rw [← Option.not_isSome_iff_eq_none]
      intro hsome
      have := ((inv.hmem j).mp hsome).2.2
      omega
    have hskipchar : (ratchetCatchUp (chainAt k s.step) s.step s.skipped_keys
        (t - s.step)).skipped
        = s.skipped_keys ++ (List.range (t - s.step - 1)).map
            fun i => (s.step + 1 + i, mkAt k (s.step + i)) := by
      rw [hfuel]
      exact ratchetCatchUp_skipped k s.step s.skipped_keys (t - s.step - 1) habs
    rw [hmk, v2Packet_drop, trial_decrypt_honest _ _ _ (by simp [raw_length])] at hd
    rw [show (match some (v2Content sid t e pt) with
      | some payload => Except.ok (unpackPayload payload)
      | none => (Except.error Err.authFailure : Except Err Bytes))
      = Except.ok (unpackPayload (v2Content sid t e pt)) from rfl,
      unpack_v2Content sid t e pt hfit] at hd
    refine ⟨_, hd, ?_, ?_, fun _ => ?_⟩
    · constructor
      · show (ratchetCatchUp (chainAt k s.step) s.step s.skipped_keys (t - s.step)).step ≤ n
        rw [hstp]
        exact htn
      · show (ratchetCatchUp (chainAt k s.step) s.step s.skipped_keys (t - s.step)).chainKey
          = chainAt k (ratchetCatchUp (chainAt k s.step) s.step s.skipped_keys
              (t - s.step)).step
        rw [hstp, hck]
      · exact fun u hu => inv.hrem u (List.mem_of_mem_erase hu)
      · exact inv.hremnd.erase t
      · intro u hgt hun
        replace hgt : (ratchetCatchUp (chainAt k s.step) s.step s.skipped_keys
          (t - s.step)).step < u := hgt
        rw [hstp] at hgt
        rw [List.mem_erase_of_ne (by omega : u ≠ t)]
        exact inv.hfuture u (by omega) hun
      · intro p hp
        replace hp : p ∈ (ratchetCatchUp (chainAt k s.step) s.step s.skipped_keys
          (t - s.step)).skipped := hp
        rw [hskipchar] at hp
        rcases List.mem_append.mp hp with hp | hp
        · exact inv.hvals p hp
        · obtain ⟨i, hi, rfl⟩ := List.mem_map.mp hp
          refine ⟨?_, by show 1 ≤ s.step + 1 + i; omega⟩
          show mkAt k (s.step + i) = mkAt k (s.step + 1 + i - 1)
          congr 1
          omega
      · show (((ratchetCatchUp (chainAt k s.step) s.step s.skipped_keys
          (t - s.step)).skipped).map Prod.fst).Nodup
        rw [hskipchar, List.map_append]
        refine List.Nodup.append inv.hnd (rangeKeys_nodup _ _ _) ?_
        intro u hu1 hu2
        have h1 : (lookupSkip s.skipped_keys u).isSome := by
          rw [lookupSkip_isSome_iff_mem]
          exact hu1
        have h2 := ((inv.hmem u).mp h1).2.2
        have h3 := (rangeKeys_mem s.step (t - s.step - 1) u _).mp hu2
        omega
      · intro u
        show (lookupSkip ((ratchetCatchUp (chainAt k s.step) s.step s.skipped_keys
            (t - s.step)).skipped) u).isSome = true
          ↔ u ∈ rem.erase t ∧ 1 ≤ u ∧
            u ≤ (ratchetCatchUp (chainAt k s.step) s.step s.skipped_keys (t - s.step)).step
        rw [hskipchar, hstp, lookupSkip_append_isSome, inv.hmem u,
          lookupSkip_isSome_iff_mem, rangeKeys_mem]
        constructor
        · rintro (⟨h1, h2, h3⟩ | ⟨h1, h2⟩)
          · exact ⟨(List.mem_erase_of_ne (by omega : u ≠ t)).mpr h1, h2, by omega⟩
          · exact ⟨(List.mem_erase_of_ne (by omega : u ≠ t)).mpr
              (inv.hfuture u (by omega) (by omega)), by omega, by omega⟩
        · rintro ⟨h1, h2, h3⟩
          have hne : u ≠ t := by
            intro h
            subst h
            exact absurd h1
              ((not_congr (List.Nodup.mem_erase_iff inv.hremnd)).mpr (by simp))
          have hu : u ∈ rem := (List.mem_erase_of_ne hne).mp h1
          by_cases hle : u ≤ s.step
          · exact Or.inl ⟨hu, h2, hle⟩
          · exact Or.inr ⟨by omega, by omega⟩
      · show refresh_lookup_cache
            (ratchetCatchUp (chainAt k s.step) s.step s.skipped_keys (t - s.step)).skipped
            (ratchetCatchUp (chainAt k s.step) s.step s.skipped_keys (t - s.step)).chainKey
            (ratchetCatchUp (chainAt k s.step) s.step s.skipped_keys (t - s.step)).step
          = refresh_lookup_cache
            (ratchetCatchUp (chainAt k s.step) s.step s.skipped_keys (t - s.step)).skipped
            (ratchetCatchUp (chainAt k s.step) s.step s.skipped_keys (t - s.step)).chainKey
            (ratchetCatchUp (chainAt k s.step) s.step s.skipped_keys (t - s.step)).step
        rfl
    · show (ratchetCatchUp (chainAt k s.step) s.step s.skipped_keys (t - s.step)).step
        = s.step ⊔ t
      rw [hstp]
      exact (max_eq_right (Nat.le_of_lt hlt)).symm
    · show ((ratchetCatchUp (chainAt k s.step) s.step s.skipped_keys
        (t - s.step)).skipped).length + 1 = s.skipped_keys.length + (t - s.step)
      rw [hskipchar]
      simp only [List.length_append, List.length_map, List.length_range]
      omega

/-!
Runs of V2 decrypts over honest packet sequences.
-/

theorem invV2_init (k : List Nat) (n : Nat) :
    InvV2 k n (List.range' 1 n) (QuantumDoubleRatchetReceiver.init k) := by
  constructor
  · exact Nat.zero_le n
  · rfl
  · intro t ht
    have := List.mem_range'_1.mp ht
    omega
  · exact List.nodup_range' 1 n
  · intro t h1 h2
    exact List.mem_range'_1.mpr ⟨h1, by omega⟩
  · intro p hp
    exact absurd hp (List.not_mem_nil p)
  · exact List.nodup_nil
  · intro u
    constructor
    · intro h
      exact absurd h (by simp [lookupSkip])
    · rintro ⟨-, h1, h2⟩
      replace h2 : u ≤ 0 := h2
      omega
  · rfl

theorem v2_run_dec (k : List Nat) (hk32 : k.length = 32) (n : Nat) (hn : n ≤ MAX_SKIP)
    (sid : String) (envs : Nat → EnvV2) (pts : List Bytes)
    (hfit : ∀ t, 1 ≤ t → t ≤ n → v2Fits sid t (envs (t - 1)) (pts.getD (t - 1) []))
    (ord : List Nat) :
    ∀ (rem : List Nat) (s : QuantumDoubleRatchetReceiver), InvV2 k n rem s →
      (∀ t ∈ ord, t ∈ rem) → ord.Nodup →
    (runDecV2 s (ord.map fun t => v2Packet k sid t (envs (t - 1)) (pts.getD (t - 1) []))).1
      = ord.map fun t => Except.ok (pts.getD (t - 1) []) := by
  induction ord with
  | nil => intro rem s _ _ _; rfl
  | cons t rest ih =>
    intro rem s inv hsub hnd
    have htrem : t ∈ rem := hsub t (List.mem_cons_self t rest)
    obtain ⟨ht1, htn⟩ := inv.hrem t htrem
    obtain ⟨s', heq, inv', hstep', -⟩ := v2_decrypt_step k hk32 n rem s inv t htrem
      (by unfold MAX_SKIP at hn ⊢; omega) sid (envs (t - 1)) (pts.getD (t - 1) [])
      (hfit t ht1 htn)
    simp only [List.map_cons, runDecV2, heq]
    rw [ih (rem.erase t) s' inv' ?_ (List.nodup_cons.mp hnd).2]
    intro u hu
    have hne : u ≠ t := by
      intro h
      subst h
      exact absurd hu (List.nodup_cons.mp hnd).1
    exact (List.mem_erase_of_ne hne).mpr (hsub u (List.mem_cons_of_mem t hu))

theorem v2_run_inorder (k : List Nat) (hk32 : k.length = 32) (n : Nat)
    (sid : String) (envs : Nat → EnvV2) (pts : List Bytes)
    (hfit : ∀ t, 1 ≤ t → t ≤ n → v2Fits sid t (envs (t - 1)) (pts.getD (t - 1) [])) :
    ∀ (m st : Nat) (s : QuantumDoubleRatchetReceiver), st + m = n → s.step = st →
      InvV2 k n (List.range' (st + 1) m) s →
    (runDecV2 s ((List.range' (st + 1) m).map fun t =>
        v2Packet k sid t (envs (t - 1)) (pts.getD (t - 1) []))).1
      = (List.range' (st + 1) m).map fun t => Except.ok (pts.getD (t - 1) []) := by
  intro m
  induction m with
  | zero => intro st s _ _ _; rfl
  | succ mm ih =>
    intro st s hsum hstep inv
    have htrem : st + 1 ∈ List.range' (st + 1) (mm + 1) :=
      List.mem_range'_1.mpr ⟨le_refl _, by omega⟩
    obtain ⟨s', heq, inv', hstep', -⟩ := v2_decrypt_step k hk32 n _ s inv (st + 1) htrem
      (by unfold MAX_SKIP; omega) sid (envs st) (pts.getD st [])
      (by have := hfit (st + 1) (by omega) (by omega); simpa using this)
    have hrange : List.range' (st + 1) (mm + 1) = (st + 1) :: List.range' (st + 2) mm := by
      rw [List.range'_succ]
    rw [hrange]
    simp only [List.map_cons, runDecV2]
    have heq2 : s.decrypt (v2Packet k sid (st + 1) (envs (st + 1 - 1))
        (pts.getD (st + 1 - 1) [])) = (.ok (pts.getD st []), s') := by
      simpa using heq
    rw [heq2]
    have hremeq : (((st + 1) :: List.range' (st + 2) mm).erase (st + 1))
        = List.range' (st + 2) mm := List.erase_cons_head (st + 1) _
    rw [hrange, hremeq] at inv'
    have hstep2 : s'.step = st + 1 := by
      rw [hstep', hstep]
      omega
    rw [ih (st + 1) s' (by omega) hstep2 inv']
    simp

/-!
State analysis of the receivers: step monotonicity, the packet-independence
of the V1 state transition, and what remains after an auth failure.
-/

theorem ratchetCatchUp_skipped_isSome :
    ∀ (d : Nat) (ck : Bytes) (st : Nat) (sk : List (Nat × Bytes)) (u : Nat),
    (lookupSkip (ratchetCatchUp ck st sk d).skipped u).isSome
      ↔ (lookupSkip sk u).isSome ∨ (st < u ∧ u < st + d)
  | 0, ck, st, sk, u => by
    constructor
    · exact Or.inl
    · rintro (h | h)
      · exact h
      · omega
  | 1, ck, st, sk, u => by
    constructor
    · exact Or.inl
    · rintro (h | h)
      · exact h
      · omega
  | (d + 2), ck, st, sk, u => by
    have hrec := ratchetCatchUp_skipped_isSome (d + 1)
      (HKDF ck none RATCHET_INFO_CHAIN AES_KEY_SIZE) (st + 1)
      (insertSkip sk (st + 1) (HKDF ck none RATCHET_INFO_MSG AES_KEY_SIZE)) u
    rw [show ratchetCatchUp ck st sk (d + 2)
        = ratchetCatchUp (HKDF ck none RATCHET_INFO_CHAIN AES_KEY_SIZE) (st + 1)
            (insertSkip sk (st + 1) (HKDF ck none RATCHET_INFO_MSG AES_KEY_SIZE)) (d + 1)
      from rfl]
    rw [hrec]
    rw [show (lookupSkip (insertSkip sk (st + 1)
        (HKDF ck none RATCHET_INFO_MSG AES_KEY_SIZE)) u)
      = if u = st + 1 then some (HKDF ck none RATCHET_INFO_MSG AES_KEY_SIZE)
        else lookupSkip sk u from lookupSkip_insertSkip _ _ _ _]
    by_cases hu : u = st + 1
    · rw [if_pos hu]
      constructor
      · intro _
        exact Or.inr (by omega)
      · intro _
        exact Or.inl rfl
    · rw [if_neg hu]
      constructor
      · rintro (h | h)
        · exact Or.inl h
        · exact Or.inr (by omega)
      · rintro (h | h)
        · exact Or.inl h
        · exact Or.inr (by omega)

theorem v1_decrypt_step_mono (s : SymmetricRatchetReceiver) (pkg : Bytes)
    (aad : Option Bytes) : s.step ≤ (s.decrypt pkg aad).2.step := by
  simp only [SymmetricRatchetReceiver.decrypt]
  split
  · exact le_refl _
  · split
    · split
      · exact le_refl _
      · split
        · exact le_refl _
        · exact ratchetCatchUp_step_ge _ _ _ _
    · exact le_refl _

theorem v2_decrypt_step_mono (s : QuantumDoubleRatchetReceiver) (pkg : Bytes) :
    s.step ≤ (s.decrypt pkg).2.step := by
  simp only [QuantumDoubleRatchetReceiver.decrypt]
  split
  · exact le_refl _
  · split
    · exact le_refl _
    · split
      · split
        · exact le_refl _
        · exact le_refl _
      · split
        · split
          · exact ratchetCatchUp_step_ge _ _ _ _
          · exact ratchetCatchUp_step_ge _ _ _ _
        · exact le_refl _

theorem v1_run_mono (calls : List (Bytes × Option Bytes)) :
    ∀ s : SymmetricRatchetReceiver, s.step ≤ (runDecV1 s calls).2.step := by
  induction calls with
  | nil => exact fun s => le_refl _
  | cons c cs ih =>
    intro s
    exact le_trans (v1_decrypt_step_mono s c.1 c.2) (ih (s.decrypt c.1 c.2).2)

theorem v2_run_mono (pkts : List Bytes) :
    ∀ s : QuantumDoubleRatchetReceiver, s.step ≤ (runDecV2 s pkts).2.step := by
  induction pkts with
  | nil => exact fun s => le_refl _
  | cons p ps ih =>
    intro s
    exact le_trans (v2_decrypt_step_mono s p) (ih (s.decrypt p).2)

theorem v1_decrypt_state (s : SymmetricRatchetReceiver) (pkg : Bytes) (aad : Option Bytes) :
    (s.decrypt pkg aad).2 = v1NextState s aad := by
  simp only [SymmetricRatchetReceiver.decrypt, v1NextState]
  split
  · rfl
  · split
    · split
      · rfl
      · split
        · rfl
        · rfl
    · rfl

theorem v1_authfail_consumed (s : SymmetricRatchetReceiver) (pkg : Bytes) (aad : Option Bytes)
    (h : (s.decrypt pkg aad).1 = .error .authFailure) :
    lookupSkipI (s.decrypt pkg aad).2.skipped_keys (targetOfAad s.step aad) = none := by
  cases hL : lookupSkipI s.skipped_keys (targetOfAad s.step aad) with
  | some mkey =>
    have ht0 : 0 ≤ targetOfAad s.step aad := by
      by_contra h0
      rw [lookupSkipI, if_neg h0] at hL
      cases hL
    rw [v1_dispatch_skipped s pkg aad mkey hL]
    rw [lookupSkipI, if_pos ht0, lookupSkip_eraseSkip, if_pos rfl]
  | none =>
    by_cases hgt : (s.step : Int) < targetOfAad s.step aad
    · by_cases hbig : (MAX_SKIP_RANGE : Int) < targetOfAad s.step aad - (s.step : Int)
      · rw [v1_dispatch_skipTooLarge s pkg aad hL hbig] at h
        cases h
      · by_cases hov : (MAX_STORED_KEYS : Int) <
            (s.skipped_keys.length : Int) + (targetOfAad s.step aad - (s.step : Int))
        · rw [v1_dispatch_overflow s pkg aad hL hgt (not_lt.mp hbig) hov] at h
          cases h
        · rw [v1_dispatch_future s pkg aad hL hgt (not_lt.mp hbig) (not_lt.mp hov)]
          have ht0 : 0 ≤ targetOfAad s.step aad := by
            have : (0 : Int) ≤ (s.step : Int) := Int.natCast_nonneg s.step
            omega
          rw [lookupSkipI, if_pos ht0, ← Option.not_isSome_iff_eq_none,
            ratchetCatchUp_skipped_isSome]
          have htoNat : (targetOfAad s.step aad).toNat
              = s.step + (targetOfAad s.step aad - (s.step : Int)).toNat := by
            omega
          rintro (hs | hs)
          · rw [lookupSkipI, if_pos ht0] at hL
            rw [hL] at hs
            cases hs
          · omega
    · rw [v1_dispatch_replay s pkg aad hL (not_lt.mp hgt)] at h
      cases h

/-- One V1 `decrypt` call preserves well-formedness and never resurrects a
consumed target: a target at or below the current step that is absent from
`skipped_keys` stays absent, and the step stays at or above it. -/
theorem v1_consumed_preserved (s : SymmetricRatchetReceiver) (pkg : Bytes) (aad : Option Bytes)
    (t : Int) (hw : WfV1 s) (h1 : t ≤ (s.step : Int))
    (h2 : lookupSkipI s.skipped_keys t = none) :
    WfV1 (s.decrypt pkg aad).2 ∧ t ≤ (((s.decrypt pkg aad).2.step : Nat) : Int) ∧
      lookupSkipI (s.decrypt pkg aad).2.skipped_keys t = none := by
  rw [v1_decrypt_state s pkg aad]
  simp only [v1NextState]
  split
  · refine ⟨?_, h1, ?_⟩
    · intro p hp
      exact hw p (List.mem_of_mem_filter hp)
    · show lookupSkipI (eraseSkip s.skipped_keys (targetOfAad s.step aad).toNat) t = none
      by_cases ht0 : 0 ≤ t
      · rw [lookupSkipI, if_pos ht0] at h2 ⊢
        rw [lookupSkip_eraseSkip]
        split
        · rfl
        · exact h2
      · rw [lookupSkipI, if_neg ht0]
  · by_cases hgt : (s.step : Int) < targetOfAad s.step aad
    · rw [if_pos hgt]
      by_cases hbig : (MAX_SKIP_RANGE : Int) < targetOfAad s.step aad - (s.step : Int)
      · rw [if_pos hbig]
        exact ⟨hw, h1, h2⟩
      · rw [if_neg hbig]
        by_cases hov : (MAX_STORED_KEYS : Int) <
            (s.skipped_keys.length : Int) + (targetOfAad s.step aad - (s.step : Int))
        · rw [if_pos hov]
          exact ⟨hw, h1, h2⟩
        · rw [if_neg hov]
          have hstp : (ratchetCatchUp s.chain_key s.step s.skipped_keys
              (targetOfAad s.step aad - (s.step : Int)).toNat).step
              = s.step + (targetOfAad s.step aad - (s.step : Int)).toNat := by
            have hfuel : (targetOfAad s.step aad - (s.step : Int)).toNat
                = ((targetOfAad s.step aad - (s.step : Int)).toNat - 1) + 1 := by
              omega
            rw [hfuel, ratchetCatchUp_step_succ]
          refine ⟨?_, ?_, ?_⟩
          · intro p hp
            have hpmem : (lookupSkip (ratchetCatchUp s.chain_key s.step s.skipped_keys
                (targetOfAad s.step aad - (s.step : Int)).toNat).skipped p.1).isSome := by
              rw [lookupSkip_isSome_iff_mem]
              exact List.mem_map_of_mem Prod.fst hp
            rw [ratchetCatchUp_skipped_isSome] at hpmem
            show p.1 ≤ (ratchetCatchUp s.chain_key s.step s.skipped_keys
                (targetOfAad s.step aad - (s.step : Int)).toNat).step
            rw [hstp]
            rcases hpmem with hs | hs
            · obtain ⟨q, hqmem, hq1⟩ := List.mem_map.mp ((lookupSkip_isSome_iff_mem _ _).mp hs)
              have hq2 := hw q hqmem
              omega
            · omega
          · show t ≤ ((ratchetCatchUp s.chain_key s.step s.skipped_keys
                (targetOfAad s.step aad - (s.step : Int)).toNat).step : Int)
            rw [hstp]
            push_cast
            omega
          · show lookupSkipI (ratchetCatchUp s.chain_key s.step s.skipped_keys
                (targetOfAad s.step aad - (s.step : Int)).toNat).skipped t = none
            by_cases ht0 : 0 ≤ t
            · rw [lookupSkipI, if_pos ht0, ← Option.not_isSome_iff_eq_none,
                ratchetCatchUp_skipped_isSome]
              rintro (hs | hs)
              · rw [lookupSkipI, if_pos ht0] at h2
                rw [h2] at hs
                cases hs
              · omega
            · rw [lookupSkipI, if_neg ht0]
    · rw [if_neg hgt]
      exact ⟨hw, h1, h2⟩


theorem v1_run_consumed (calls : List (Bytes × Option Bytes)) :
    ∀ (s : SymmetricRatchetReceiver) (t : Int), WfV1 s → t ≤ (s.step : Int) →
      lookupSkipI s.skipped_keys t = none →
    WfV1 (runDecV1 s calls).2 ∧ t ≤ ((runDecV1 s calls).2.step : Int) ∧
      lookupSkipI (runDecV1 s calls).2.skipped_keys t = none := by
  induction calls with
  | nil => exact fun s t hw h1 h2 => ⟨hw, h1, h2⟩
  | cons c cs ih =>
    intro s t hw h1 h2
    obtain ⟨hw', h1', h2'⟩ := v1_consumed_preserved s c.1 c.2 t hw h1 h2
    exact ih (s.decrypt c.1 c.2).2 t hw' h1' h2'

theorem targetOfAad_some (st : Nat) {aad : Option Bytes} {t : Int}
    (h : aadSeq aad = some t) : targetOfAad st aad = t := by
  rw [targetOfAad, h, Option.getD_some]

theorem gcmTag_ne_raw (key nonce aad ct : Bytes) (l : List Nat) :
    gcmTag key nonce aad ct ≠ raw l := by
  intro h
  have hlen : l.length = 16 := by
    have h' := congrArg List.length h
    simp only [gcmTag_length, raw_length] at h'
    exact h'.symm
  cases l with
  | nil => simp at hlen
  | cons c cs =>
    have h16 : (16 : Nat) = 15 + 1 := rfl
    rw [gcmTag, h16, List.range_succ_eq_map, List.map_cons, raw, List.map_cons] at h
    have h0 : gcmTagByte key nonce aad ct 0 = blit c := (List.cons.injEq _ _ _ _ ▸ h).1
    simp only [gcmTagByte, blit, Nat.pair_eq_pair] at h0
    exact absurd h0.1 (by decide)

theorem v1_wf_preserved (s : SymmetricRatchetReceiver) (pkg : Bytes) (aad : Option Bytes)
    (hw : WfV1 s) : WfV1 (s.decrypt pkg aad).2 :=
  (v1_consumed_preserved s pkg aad (-1) hw (by omega)
    (by rw [lookupSkipI, if_neg (by decide)])).1

theorem v1_success_consumed (s : SymmetricRatchetReceiver) (pkg : Bytes) (aad : Option Bytes)
    (m : Bytes) (hw : WfV1 s) (h : (s.decrypt pkg aad).1 = .ok m) :
    targetOfAad s.step aad ≤ (((s.decrypt pkg aad).2.step : Nat) : Int) ∧
      lookupSkipI (s.decrypt pkg aad).2.skipped_keys (targetOfAad s.step aad) = none := by
  cases hL : lookupSkipI s.skipped_keys (targetOfAad s.step aad) with
  | some mkey =>
    have ht0 : 0 ≤ targetOfAad s.step aad := by
      by_contra h0
      rw [lookupSkipI, if_neg h0] at hL
      cases hL
    have hsome : (lookupSkip s.skipped_keys (targetOfAad s.step aad).toNat).isSome := by
      rw [lookupSkipI, if_pos ht0] at hL
      rw [hL]
      rfl
    obtain ⟨q, hq, hq1⟩ := List.mem_map.mp ((lookupSkip_isSome_iff_mem _ _).mp hsome)
    have hqs := hw q hq
    rw [v1_dispatch_skipped s pkg aad mkey hL]
    refine ⟨by push_cast; omega, ?_⟩
    rw [lookupSkipI, if_pos ht0, lookupSkip_eraseSkip, if_pos rfl]
  | none =>
    by_cases hgt : (s.step : Int) < targetOfAad s.step aad
    · by_cases hbig : (MAX_SKIP_RANGE : Int) < targetOfAad s.step aad - (s.step : Int)
      · rw [v1_dispatch_skipTooLarge s pkg aad hL hbig] at h
        exact absurd h (by simp)
      · by_cases hov : (MAX_STORED_KEYS : Int) <
            (s.skipped_keys.length : Int) + (targetOfAad s.step aad - (s.step : Int))
        · rw [v1_dispatch_overflow s pkg aad hL hgt (not_lt.mp hbig) hov] at h
          exact absurd h (by simp)
        · rw [v1_dispatch_future s pkg aad hL hgt (not_lt.mp hbig) (not_lt.mp hov)]
          have ht0 : 0 ≤ targetOfAad s.step aad := by
            have : (0 : Int) ≤ (s.step : Int) := Int.natCast_nonneg s.step
            omega
          have hstp : (ratchetCatchUp s.chain_key s.step s.skipped_keys
              (targetOfAad s.step aad - (s.step : Int)).toNat).step
              = s.step + (targetOfAad s.step aad - (s.step : Int)).toNat := by
            have hfuel : (targetOfAad s.step aad - (s.step : Int)).toNat
                = ((targetOfAad s.step aad - (s.step : Int)).toNat - 1) + 1 := by
              omega
            rw [hfuel, ratchetCatchUp_step_succ]
          refine ⟨?_, ?_⟩
          · show targetOfAad s.step aad ≤ (((ratchetCatchUp s.chain_key s.step s.skipped_keys
              (targetOfAad s.step aad - (s.step : Int)).toNat).step : Nat) : Int)
            rw [hstp]
            push_cast
            omega
          · show lookupSkipI (ratchetCatchUp s.chain_key s.step s.skipped_keys
                (targetOfAad s.step aad - (s.step : Int)).toNat).skipped
                (targetOfAad s.step aad) = none
            rw [lookupSkipI, if_pos ht0, ← Option.not_isSome_iff_eq_none,
              ratchetCatchUp_skipped_isSome]
            rintro (hs | hs)
            · rw [lookupSkipI, if_pos ht0] at hL
              rw [hL] at hs
              cases hs
            · omega
    · rw [v1_dispatch_replay s pkg aad hL (not_lt.mp hgt)] at h
      exact absurd h (by simp)

theorem v2_sender_fail (rk ck : Bytes) (sid : String) (st : Nat) (pt : Bytes) (e : EnvV2)
    (hbig : FIXED_PAYLOAD_SIZE < 8 + v2HeaderLen sid (st + 1) e.ts e.uid + pt.length) :
    QuantumDoubleRatchet.encrypt ⟨rk, ck, st, sid⟩ pt e
      = (.error .payloadTooLarge,
         ⟨rk, HKDF ck none RATCHET_INFO_CHAIN AES_KEY_SIZE, st + 1, sid⟩) := by
  have hc : FIXED_PAYLOAD_SIZE <
      (u32be (raw (strBytes (jsonHeader sid (st + 1) e.ts e.uid))).length ++
        raw (strBytes (jsonHeader sid (st + 1) e.ts e.uid)) ++ u32be pt.length ++ pt).length := by
    unfold v2HeaderLen at hbig
    simp only [List.length_append, raw, List.length_map, u32be, List.length_cons,
      List.length_nil]
    omega
  simp only [QuantumDoubleRatchet.encrypt]
  rw [if_pos hc]

theorem map_getD_range_self (l : List Bytes) :
    (List.range l.length).map (fun i => l.getD i ([] : Bytes)) = l := by
  apply List.ext_getElem
  · simp
  · intro i h1 h2
    simp only [List.getElem_map, List.getElem_range]
    exact List.getD_eq_getElem l [] h2

/-- C7: across every sequence of decrypt calls on a V1 or V2 receiver,
whatever each call returns, the step counter never decreases: each single
call and each whole run leaves it at or above its previous value. -/
theorem C7_step_monotone :
    (∀ (s : SymmetricRatchetReceiver) (calls : List (Bytes × Option Bytes)),
      s.step ≤ (runDecV1 s calls).2.step)
    ∧ (∀ (s : QuantumDoubleRatchetReceiver) (pkts : List Bytes),
      s.step ≤ (runDecV2 s pkts).2.step)
    ∧ (∀ (s : SymmetricRatchetReceiver) (pkg : Bytes) (aad : Option Bytes),
      s.step ≤ (s.decrypt pkg aad).2.step)
    ∧ (∀ (s : QuantumDoubleRatchetReceiver) (pkg : Bytes),
      s.step ≤ (s.decrypt pkg).2.step) :=
  ⟨fun s calls => v1_run_mono calls s, fun s pkts => v2_run_mono pkts s,
   v1_decrypt_step_mono, v2_decrypt_step_mono⟩

/-- C10 (amended): no constructor validates the secret's length.  All four
constructors are total — they accept a secret of any length and build a
fully functioning ratchet from it; in particular the V1 packet round trip
succeeds for a secret of any shape. -/
theorem C10_constructors_total :
    (∀ secret : List Nat, SymmetricRatchet.init secret = ⟨raw secret, 0⟩)
    ∧ (∀ secret : List Nat, SymmetricRatchetReceiver.init secret = ⟨raw secret, 0, []⟩)
    ∧ (∀ (secret : List Nat) (sid : String),
        QuantumDoubleRatchet.init secret sid = ⟨raw secret, raw secret, 0, sid⟩)
    ∧ (∀ secret : List Nat, QuantumDoubleRatchetReceiver.init secret
        = ⟨raw secret, raw secret, 0, [], refresh_lookup_cache [] (raw secret) 0⟩)
    ∧ (∀ (secret pt : Bytes) (aad : Option Bytes) (rnd : Nat → Nat),
        decrypt_message secret (encrypt_message secret pt aad rnd) aad = .ok pt) :=
  ⟨fun _ => rfl, fun _ => rfl, fun _ _ => rfl, fun _ => rfl,
   fun secret pt aad rnd => decrypt_message_encrypt secret pt aad aad rnd rfl⟩

/-- C10 counterexample: a 31-byte secret is not rejected — both V1
constructors succeed on it and produce ordinary ratchet states, so no
`BadInput` failure exists at construction time. -/
theorem C10_counterexample :
    (List.replicate 31 0 : List Nat).length ≠ 32 ∧
    SymmetricRatchet.init (List.replicate 31 0) = ⟨raw (List.replicate 31 0), 0⟩ ∧
    SymmetricRatchetReceiver.init (List.replicate 31 0)
      = ⟨raw (List.replicate 31 0), 0, []⟩ ∧
    QuantumDoubleRatchetReceiver.init (List.replicate 31 0)
      = ⟨raw (List.replicate 31 0), raw (List.replicate 31 0), 0, [],
         refresh_lookup_cache [] (raw (List.replicate 31 0)) 0⟩ :=
  ⟨by decide, rfl, rfl, rfl⟩

/-- C4: a V1 decrypt whose target lies beyond the current step fails with
`skipTooLarge` when the distance exceeds `MAX_SKIP_RANGE`, and otherwise
with `skipStoreOverflow` when the store would overflow `MAX_STORED_KEYS`;
in both cases the returned state is exactly the state before the call. -/
theorem C4_skip_guards (s : SymmetricRatchetReceiver) (pkg : Bytes) (aad : Option Bytes)
    (hw : WfV1 s) (hgt : (s.step : Int) < targetOfAad s.step aad) :
    ((MAX_SKIP_RANGE : Int) < targetOfAad s.step aad - (s.step : Int) →
      s.decrypt pkg aad = (.error .skipTooLarge, s))
    ∧ (targetOfAad s.step aad - (s.step : Int) ≤ (MAX_SKIP_RANGE : Int) →
       (MAX_STORED_KEYS : Int) < (s.skipped_keys.length : Int)
           + (targetOfAad s.step aad - (s.step : Int)) →
      s.decrypt pkg aad = (.error .skipStoreOverflow, s)) := by
  have hL : lookupSkipI s.skipped_keys (targetOfAad s.step aad) = none := by
    by_cases ht0 : 0 ≤ targetOfAad s.step aad
    · rw [lookupSkipI, if_pos ht0, ← Option.not_isSome_iff_eq_none]
      intro hs
      obtain ⟨q, hq, hq1⟩ := List.mem_map.mp ((lookupSkip_isSome_iff_mem _ _).mp hs)
      have hqs := hw q hq
      omega
    · rw [lookupSkipI, if_neg ht0]
  exact ⟨fun hbig => v1_dispatch_skipTooLarge s pkg aad hL hbig,
         fun hsm hov => v1_dispatch_overflow s pkg aad hL hgt hsm hov⟩

theorem map_byteVal_raw (l : List Nat) : (raw l).map byteVal = l := by
  induction l with
  | nil => rfl
  | cons c cs ih => simp only [raw, List.map_cons, byteVal_blit] at ih ⊢; rw [ih]

theorem targetOfAad_raw (st : Nat) (l : List Nat) (h : l ≠ []) :
    targetOfAad st (some (raw l))
      = ((match afterPat SEQ_PAT l with
          | none => none
          | some rest =>
              parsePyInt ((beforePat SEQ_PAT rest).takeWhile fun c => c ≠ 124)) :
          Option Int).getD ((st : Int) + 1) := by
  rw [targetOfAad]
  simp only [aadSeq, if_neg (raw_ne_nil h), parsedSeq, map_byteVal_raw]

theorem lookupSkipI_nil (t : Int) : lookupSkipI [] t = none := by
  rw [lookupSkipI]
  split
  · rfl
  · rfl

theorem C4_witness :
    (SymmetricRatchetReceiver.init (List.replicate 32 0)).decrypt []
        (some (raw (strBytes "seq:1001")))
      = (.error .skipTooLarge, SymmetricRatchetReceiver.init (List.replicate 32 0)) :=
  (C4_skip_guards (SymmetricRatchetReceiver.init (List.replicate 32 0)) []
      (some (raw (strBytes "seq:1001")))
      (fun p hp => absurd hp (List.not_mem_nil p))
      (by rw [show (SymmetricRatchetReceiver.init (List.replicate 32 0)).step = 0 from rfl,
            targetOfAad_raw 0 _ (by decide)]
          decide)).1
    (by rw [show (SymmetricRatchetReceiver.init (List.replicate 32 0)).step = 0 from rfl,
          targetOfAad_raw 0 _ (by decide)]
        decide)

theorem decrypt_and_verify_raw_tag (key nonce aad ct : Bytes) (l : List Nat) :
    decrypt_and_verify key nonce aad ct (raw l) = none := by
  rw [decrypt_and_verify, if_neg]
  intro h
  exact gcmTag_ne_raw key nonce aad ct l h.symm

/-- C6: a V1 decrypt whose target is at or below the current step and not
among the skipped keys fails with `replayOrStale` and returns the state
unchanged; and once a packet with a parseable `seq` AAD has been decrypted
successfully, any later call under that AAD — after any number of
intervening calls — fails with `replayOrStale`, producing no plaintext. -/
theorem C6_replay_rejected :
    (∀ (s : SymmetricRatchetReceiver) (pkg : Bytes) (aad : Option Bytes),
      targetOfAad s.step aad ≤ (s.step : Int) →
      lookupSkipI s.skipped_keys (targetOfAad s.step aad) = none →
      s.decrypt pkg aad = (.error .replayOrStale, s))
    ∧ (∀ (s : SymmetricRatchetReceiver) (pkg pkg2 : Bytes) (aad : Option Bytes) (t : Int)
        (m : Bytes) (calls : List (Bytes × Option Bytes)),
      WfV1 s → aadSeq aad = some t → (s.decrypt pkg aad).1 = .ok m →
      ((runDecV1 (s.decrypt pkg aad).2 calls).2.decrypt pkg2 aad).1
        = .error .replayOrStale) := by
  constructor
  · exact fun s pkg aad hle hl => v1_dispatch_replay s pkg aad hl hle
  · intro s pkg pkg2 aad t m calls hw hseq hok
    have ht0 : targetOfAad s.step aad = t := targetOfAad_some s.step hseq
    obtain ⟨hle, habs⟩ := v1_success_consumed s pkg aad m hw hok
    rw [ht0] at hle habs
    have hw1 := v1_wf_preserved s pkg aad hw
    obtain ⟨hw2, hle2, habs2⟩ := v1_run_consumed calls (s.decrypt pkg aad).2 t hw1 hle habs
    have ht2 : targetOfAad (runDecV1 (s.decrypt pkg aad).2 calls).2.step aad = t :=
      targetOfAad_some _ hseq
    rw [← ht2] at hle2 habs2
    rw [v1_dispatch_replay _ pkg2 aad habs2 hle2]

/-- C5 (amended): an `authFailure` outcome does not leave the receiver
unchanged.  For V1 the post-state of the failed call is exactly
`v1NextState` — the same mutation a successful call makes, depending only
on the AAD — and the target's key ends up absent from the skipped store.
For V2, when the beacon resolves to a stored skipped key and the tag check
fails, the call still deletes that key and rebuilds the lookup cache from
the shrunken store. -/
theorem C5_authfail_state :
    (∀ (s : SymmetricRatchetReceiver) (pkg : Bytes) (aad : Option Bytes),
      (s.decrypt pkg aad).1 = .error .authFailure →
      (s.decrypt pkg aad).2 = v1NextState s aad ∧
        lookupSkipI (s.decrypt pkg aad).2.skipped_keys (targetOfAad s.step aad) = none)
    ∧ (∀ (s : QuantumDoubleRatchetReceiver) (pkg : Bytes) (mkey : Bytes) (t : Nat),
      ¬ pkg.length < 16 + NONCE_SIZE + TAG_SIZE →
      clookup s.lookup_cache (pkg.take 16) = some (mkey, t) →
      (lookupSkip s.skipped_keys t).isSome →
      trial_decrypt mkey (pkg.drop 16) = none →
      (s.decrypt pkg).1 = .error .authFailure ∧
        lookupSkip (s.decrypt pkg).2.skipped_keys t = none ∧
        (s.decrypt pkg).2.lookup_cache
          = refresh_lookup_cache (eraseSkip s.skipped_keys t) s.chain_key s.step) := by
  constructor
  · exact fun s pkg aad h => ⟨v1_decrypt_state s pkg aad, v1_authfail_consumed s pkg aad h⟩
  · intro s pkg mkey t hlen hcl hsk htd
    rw [v2_dispatch_caseA s pkg mkey t hlen hcl hsk, htd]
    refine ⟨rfl, ?_, rfl⟩
    show lookupSkip (eraseSkip s.skipped_keys t) t = none
    rw [lookupSkip_eraseSkip, if_pos rfl]

theorem v1_garbage_authfail :
    decrypt_message (ratchetCatchUp
        (SymmetricRatchetReceiver.init (List.replicate 32 0)).chain_key
        (SymmetricRatchetReceiver.init (List.replicate 32 0)).step
        (SymmetricRatchetReceiver.init (List.replicate 32 0)).skipped_keys (1 + 1)).msgKey
      (raw (List.replicate 44 0)) (some (raw (strBytes "seq:2"))) = .error .authFailure := by
  rw [show raw (List.replicate 44 0) = raw (List.replicate 16 0) ++ raw (List.replicate 12 0)
        ++ ([] : Bytes) ++ raw (List.replicate 16 0) from by decide]
  rw [decrypt_message_split _ _ _ _ _ _ (by decide) (by decide) (by decide)]
  rw [decrypt_and_verify_raw_tag]

/-- C5 counterexample: a fresh V1 receiver fed a 44-byte garbage packet
under the AAD `b"seq:2"` reports `authFailure`, yet its step advances from
0 to 2 — the failed call did mutate the ratchet state. -/
theorem C5_counterexample :
    ((SymmetricRatchetReceiver.init (List.replicate 32 0)).decrypt
          (raw (List.replicate 44 0)) (some (raw (strBytes "seq:2")))).1
        = .error .authFailure ∧
      ((SymmetricRatchetReceiver.init (List.replicate 32 0)).decrypt
          (raw (List.replicate 44 0)) (some (raw (strBytes "seq:2")))).2.step = 2 ∧
      (SymmetricRatchetReceiver.init (List.replicate 32 0)).step = 0 := by
  have htgt : targetOfAad (SymmetricRatchetReceiver.init (List.replicate 32 0)).step
      (some (raw (strBytes "seq:2"))) = (2 : Int) := by
    rw [show (SymmetricRatchetReceiver.init (List.replicate 32 0)).step = 0 from rfl,
      targetOfAad_raw 0 _ (by decide)]
    decide
  have hd := v1_dispatch_future (SymmetricRatchetReceiver.init (List.replicate 32 0))
    (raw (List.replicate 44 0)) (some (raw (strBytes "seq:2"))) (lookupSkipI_nil _)
    (by rw [htgt]; decide) (by rw [htgt]; decide) (by rw [htgt]; decide)
  rw [htgt] at hd
  have hfuel : ((2 : Int)
        - ((SymmetricRatchetReceiver.init (List.replicate 32 0)).step : Int)).toNat
      = 1 + 1 := by decide
  rw [hfuel] at hd
  rw [hd]
  refine ⟨?_, ?_, rfl⟩
  · rw [v1_garbage_authfail]
  · show (ratchetCatchUp
        (SymmetricRatchetReceiver.init (List.replicate 32 0)).chain_key
        (SymmetricRatchetReceiver.init (List.replicate 32 0)).step
        (SymmetricRatchetReceiver.init (List.replicate 32 0)).skipped_keys (1 + 1)).step = 2
    rw [ratchetCatchUp_step_succ]
    rfl

/-- C2: with a 32-byte secret, `n ≤ MAX_SKIP` plaintexts encrypted in
order by the V2 sender, and any permutation `π` of `1..n`, decrypting the
resulting packets in the order `π` succeeds at every call and yields the
plaintext of the matching step. -/
theorem C2_permutation_decrypt (k : List Nat) (hk32 : k.length = 32)
    (sid : String) (envs : Nat → EnvV2) (pts : List Bytes) (hn : pts.length ≤ MAX_SKIP)
    (hfit : ∀ t, 1 ≤ t → t ≤ pts.length → v2Fits sid t (envs (t - 1)) (pts.getD (t - 1) []))
    (ord : List Nat) (hperm : ord.Perm (List.range' 1 pts.length)) :
    (runEncV2 (QuantumDoubleRatchet.init k sid) envs pts).1
        = (List.range pts.length).map
            (fun i => Except.ok (v2Packet k sid (0 + i + 1) (envs (0 + i)) (pts.getD i []))) ∧
    (runDecV2 (QuantumDoubleRatchetReceiver.init k)
        (ord.map fun t => v2Packet k sid t (envs (t - 1)) (pts.getD (t - 1) []))).1
      = ord.map fun t => Except.ok (pts.getD (t - 1) []) := by
  constructor
  · have henc := v2_run_enc k (raw k) sid envs pts 0
      (fun i hi => by have := hfit (i + 1) (by omega) (by omega); simpa using this)
    rw [show QuantumDoubleRatchet.init k sid
        = (⟨raw k, chainAt k 0, 0, sid⟩ : QuantumDoubleRatchet) from rfl, henc]
  · exact v2_run_dec k hk32 pts.length hn sid envs pts hfit ord
      (List.range' 1 pts.length) (QuantumDoubleRatchetReceiver.init k)
      (invV2_init k pts.length) (fun t ht => hperm.mem_iff.mp ht)
      (hperm.nodup_iff.mpr (List.nodup_range' 1 pts.length))

theorem C2_witness :
    (runEncV2 (QuantumDoubleRatchet.init (List.replicate 32 0) "A")
        (fun _ => ⟨0, "", fun _ => 0⟩) [[]]).1
        = (List.range ([[]] : List Bytes).length).map
            (fun i => Except.ok (v2Packet (List.replicate 32 0) "A" (0 + i + 1)
              ((fun _ => (⟨0, "", fun _ => 0⟩ : EnvV2)) (0 + i)) (([[]] : List Bytes).getD i []))) ∧
    (runDecV2 (QuantumDoubleRatchetReceiver.init (List.replicate 32 0))
        ([1].map fun t => v2Packet (List.replicate 32 0) "A" t
          ((fun _ => (⟨0, "", fun _ => 0⟩ : EnvV2)) (t - 1)) (([[]] : List Bytes).getD (t - 1) []))).1
      = [1].map fun t => Except.ok (([[]] : List Bytes).getD (t - 1) ([] : Bytes)) :=
  C2_permutation_decrypt (List.replicate 32 0) (by decide) "A" (fun _ => ⟨0, "", fun _ => 0⟩)
    [[]] (by decide)
    (fun t h1 h2 => by
      replace h2 : t ≤ 1 := h2
      have ht : t = 1 := by omega
      subst ht
      unfold v2Fits
      decide)
    [1] (by decide)

/-- C9: for every step in the lookahead window, the message key the
lookup cache holds under that step's beacon (computed on the shadow chain
by `_refresh_lookup_cache`) is byte-equal to the message key the real
chain advance (`decrypt` case B's catch-up) produces for that step. -/
theorem C9_cache_key_equals_real (k : List Nat) (hk : k ≠ [])
    (sk : List (Nat × Bytes)) (st : Nat)
    (hvals : ∀ p ∈ sk, p.2 = mkAt k (p.1 - 1) ∧ 1 ≤ p.1)
    (hnd : (sk.map Prod.fst).Nodup) (hkeys : ∀ p ∈ sk, p.1 ≤ st)
    (t : Nat) (hlo : st < t) (hhi : t ≤ st + MAX_SKIP) :
    clookup (refresh_lookup_cache sk (chainAt k st) st) (beaconAt k (t - 1))
      = some ((ratchetCatchUp (chainAt k st) st sk (t - st)).msgKey, t) := by
  rw [clookup_refresh k hk sk st hvals hnd hkeys t (by omega) (Or.inr ⟨hlo, hhi⟩)]
  have hd : t - st = (t - st - 1) + 1 := by omega
  rw [hd, ratchetCatchUp_msgKey]
  have harith : st + (t - st - 1) = t - 1 := by omega
  rw [harith]

theorem C9_witness :
    clookup (refresh_lookup_cache [] (chainAt (List.replicate 32 0) 0) 0)
        (beaconAt (List.replicate 32 0) (1 - 1))
      = some ((ratchetCatchUp (chainAt (List.replicate 32 0) 0) 0 [] (1 - 0)).msgKey, 1) :=
  C9_cache_key_equals_real (List.replicate 32 0) (by decide) [] 0
    (fun p hp => absurd hp (List.not_mem_nil p)) List.nodup_nil
    (fun p hp => absurd hp (List.not_mem_nil p)) 1 (by decide) (by decide)

/-- C8: the claimed bound fails in the code — `MAX_CACHE` is declared but
never consulted, so a single decrypt of the 100th packet on a fresh V2
receiver stores 99 skipped keys, far above `MAX_CACHE = 50`. -/
theorem C8_cache_bound_violated (k : List Nat) (hk32 : k.length = 32)
    (sid : String) (e : EnvV2) (pt : Bytes) (hfit : v2Fits sid 100 e pt) :
    MAX_CACHE < (((QuantumDoubleRatchetReceiver.init k).decrypt
        (v2Packet k sid 100 e pt)).2).skipped_keys.length := by
  obtain ⟨s', heq, -, -, hlen⟩ := v2_decrypt_step k hk32 100 (List.range' 1 100)
    (QuantumDoubleRatchetReceiver.init k) (invV2_init k 100) 100
    (List.mem_range'_1.mpr ⟨by omega, by omega⟩)
    (by show (100 : Nat) ≤ 0 + MAX_SKIP
        decide)
    sid e pt hfit
  rw [heq]
  show MAX_CACHE < s'.skipped_keys.length
  have h100 := hlen (by show (0 : Nat) < 100; decide)
  replace h100 : s'.skipped_keys.length + 1
      = List.length ([] : List (Nat × Bytes)) + (100 - 0) := h100
  simp only [List.length_nil] at h100
  unfold MAX_CACHE
  omega

theorem C8_witness :
    MAX_CACHE < (((QuantumDoubleRatchetReceiver.init (List.replicate 32 0)).decrypt
        (v2Packet (List.replicate 32 0) "A" 100 ⟨0, "", fun _ => 0⟩ [])).2).skipped_keys.length :=
  C8_cache_bound_violated (List.replicate 32 0) (by decide) "A" ⟨0, "", fun _ => 0⟩ []
    (by unfold v2Fits
        decide)

/-- C3 (amended): whenever the 512-byte content bound `v2Fits` holds —
8 bytes of length fields, the hidden header, and the message fit into 512
— V2 `encrypt` emits a 556-byte packet laid out as
`beacon(16) ‖ nonce(12) ‖ tag(16) ‖ ct(512)`; when the plaintext alone
exceeds 504 bytes the call always fails with `payloadTooLarge`.  The
original bound "504 bytes of plaintext always fit" is wrong because the
hidden header occupies part of the 512 bytes, see the counterexample. -/
theorem C3_packet_layout (k : List Nat) (rk : Bytes) (sid : String) (st : Nat)
    (pt : Bytes) (e : EnvV2) :
    (v2Fits sid (st + 1) e pt →
      (QuantumDoubleRatchet.encrypt ⟨rk, chainAt k st, st, sid⟩ pt e).1
          = .ok (v2Packet k sid (st + 1) e pt) ∧
        (v2Packet k sid (st + 1) e pt).length = 556 ∧
        ∃ nonce tag ct, v2Packet k sid (st + 1) e pt
            = beaconAt k st ++ (nonce ++ tag ++ ct) ∧
          (beaconAt k st).length = 16 ∧ nonce.length = 12 ∧ tag.length = 16 ∧
          ct.length = 512)
    ∧ (504 < pt.length →
        (QuantumDoubleRatchet.encrypt ⟨rk, chainAt k st, st, sid⟩ pt e).1
          = .error .payloadTooLarge) := by
  constructor
  · intro hfit
    refine ⟨by rw [v2_sender_step k rk sid st pt e hfit],
      v2Packet_length k sid (st + 1) e pt hfit, ?_⟩
    have hsplit := v2Packet_split k sid (st + 1) e pt
    rw [Nat.add_sub_cancel] at hsplit
    refine ⟨_, _, _, hsplit, beaconAt_length k st, ?_, gcmTag_length _ _ _ _, ?_⟩
    · simp [raw_length, NONCE_SIZE]
    · rw [gcmCt_length, v2Content_length sid (st + 1) e pt hfit]
      rfl
  · intro hbig
    rw [v2_sender_fail rk (chainAt k st) sid st pt e (by unfold FIXED_PAYLOAD_SIZE; omega)]

set_option maxRecDepth 8000 in
/-- C3 counterexample: a 504-byte plaintext — within the claimed
"at most 504 bytes" bound — is rejected with `payloadTooLarge`, because
the hidden header leaves fewer than 504 bytes of room in the fixed
512-byte content. -/
theorem C3_counterexample :
    (raw (List.replicate 504 0)).length = 504 ∧
    ((QuantumDoubleRatchet.init (List.replicate 32 0) "A").encrypt
        (raw (List.replicate 504 0)) ⟨0, "", fun _ => 0⟩).1 = .error .payloadTooLarge := by
  refine ⟨by rw [raw_length, List.length_replicate], ?_⟩
  rw [show QuantumDoubleRatchet.init (List.replicate 32 0) "A"
      = (⟨raw (List.replicate 32 0), raw (List.replicate 32 0), 0, "A"⟩ : QuantumDoubleRatchet)
      from rfl]
  rw [v2_sender_fail (raw (List.replicate 32 0)) (raw (List.replicate 32 0)) "A" 0
    (raw (List.replicate 504 0)) ⟨0, "", fun _ => 0⟩
    (by show FIXED_PAYLOAD_SIZE
          < 8 + v2HeaderLen "A" (0 + 1) 0 "" + (raw (List.replicate 504 0)).length
        rw [raw_length, List.length_replicate]
        unfold FIXED_PAYLOAD_SIZE v2HeaderLen
        decide)]

/-- C1 (amended): the in-order round trip holds for V1 whenever each
message's AAD either has no parseable `seq:` field or names that message's
own 1-based index (the sender never reads the AAD's sequence number, so an
AAD like `b"seq:2"` on the first message desynchronizes the receiver — see
the counterexample), and for V2 whenever every message satisfies the
512-byte content bound. -/
theorem C1_in_order_round_trip :
    (∀ (k : List Nat) (items : List (Bytes × Option Bytes × (Nat → Nat))),
      (∀ i, i < items.length → seqOk (items.getD i ([], none, fun _ => 0)).2.1 (i + 1)) →
      (runDecV1 (SymmetricRatchetReceiver.init k)
          ((runEncV1 (SymmetricRatchet.init k) items).1.zip (items.map fun it => it.2.1))).1
        = items.map fun it => Except.ok it.1)
    ∧ (∀ (k : List Nat), k.length = 32 →
       ∀ (sid : String) (envs : Nat → EnvV2) (pts : List Bytes),
      (∀ t, 1 ≤ t → t ≤ pts.length → v2Fits sid t (envs (t - 1)) (pts.getD (t - 1) [])) →
      ∃ pkts : List Bytes,
        (runEncV2 (QuantumDoubleRatchet.init k sid) envs pts).1 = pkts.map Except.ok ∧
        (runDecV2 (QuantumDoubleRatchetReceiver.init k) pkts).1 = pts.map Except.ok) := by
  constructor
  · intro k items hseq
    have h := v1_run_in_order k 0 items (fun i hi => by simpa using hseq i hi)
    rw [show SymmetricRatchetReceiver.init k
        = (⟨chainAt k 0, 0, []⟩ : SymmetricRatchetReceiver) from rfl,
      show SymmetricRatchet.init k = (⟨chainAt k 0, 0⟩ : SymmetricRatchet) from rfl, h]
  · intro k hk32 sid envs pts hfit
    refine ⟨(List.range pts.length).map
      fun i => v2Packet k sid (i + 1) (envs i) (pts.getD i []), ?_, ?_⟩
    · have henc := v2_run_enc k (raw k) sid envs pts 0
        (fun i hi => by have := hfit (i + 1) (by omega) (by omega); simpa using this)
      rw [show QuantumDoubleRatchet.init k sid
          = (⟨raw k, chainAt k 0, 0, sid⟩ : QuantumDoubleRatchet) from rfl, henc,
        List.map_map]
      show ((List.range pts.length).map fun i =>
          Except.ok (v2Packet k sid (0 + i + 1) (envs (0 + i)) (pts.getD i [])))
        = (List.range pts.length).map
            (Except.ok ∘ fun i => v2Packet k sid (i + 1) (envs i) (pts.getD i []))
      apply List.map_congr_left
      intro i hi
      simp
    · have hdec := v2_run_inorder k hk32 pts.length sid envs pts hfit pts.length 0
        (QuantumDoubleRatchetReceiver.init k) (by omega) rfl (invV2_init k pts.length)
      have hpk : (List.range' (0 + 1) pts.length).map
          (fun t => v2Packet k sid t (envs (t - 1)) (pts.getD (t - 1) []))
          = (List.range pts.length).map
              fun i => v2Packet k sid (i + 1) (envs i) (pts.getD i []) := by
        rw [List.range'_eq_map_range, List.map_map]
        apply List.map_congr_left
        intro i hi
        simp only [Function.comp_apply]
        have h1 : 0 + 1 + i = i + 1 := by omega
        rw [h1]
        simp
      have hout : (List.range' (0 + 1) pts.length).map
          (fun t => (Except.ok (pts.getD (t - 1) ([] : Bytes)) : Except Err Bytes))
          = pts.map Except.ok := by
        rw [List.range'_eq_map_range, List.map_map]
        have hc : (List.range pts.length).map
            ((fun t => (Except.ok (pts.getD (t - 1) ([] : Bytes)) : Except Err Bytes))
              ∘ (fun i => 0 + 1 + i))
            = (List.range pts.length).map
                ((Except.ok : Bytes → Except Err Bytes) ∘ fun i => pts.getD i ([] : Bytes)) := by
          apply List.map_congr_left
          intro i hi
          simp only [Function.comp_apply]
          have h1 : 0 + 1 + i - 1 = i := by omega
          rw [h1]
        rw [hc, ← List.map_map, map_getD_range_self]
      rw [hpk, hout] at hdec
      exact hdec

set_option maxRecDepth 4000 in
/-- C1 counterexample: one message, with the same AAD `b"seq:2"` passed to
both `encrypt` and `decrypt` (matching AADs, as the claim demands).  The
receiver trusts the AAD's `seq:` field, skips to step 2, and derives the
wrong key, so the very first in-order decrypt fails with `authFailure`
instead of returning the plaintext. -/
theorem C1_counterexample :
    (runDecV1 (SymmetricRatchetReceiver.init (List.replicate 32 0))
        ((runEncV1 (SymmetricRatchet.init (List.replicate 32 0))
            [(raw [104, 105], some (raw (strBytes "seq:2")), fun _ => 0)]).1.zip
          [some (raw (strBytes "seq:2"))])).1
      = [.error .authFailure] := by
  have hs := v1_sender_step (List.replicate 32 0) 0 (raw [104, 105])
    (some (raw (strBytes "seq:2"))) (fun _ => 0)
  rw [show SymmetricRatchet.init (List.replicate 32 0)
      = (⟨chainAt (List.replicate 32 0) 0, 0⟩ : SymmetricRatchet) from rfl,
    show SymmetricRatchetReceiver.init (List.replicate 32 0)
      = (⟨chainAt (List.replicate 32 0) 0, 0, []⟩ : SymmetricRatchetReceiver) from rfl]
  simp only [runEncV1, hs, runDecV1, List.zip_cons_cons, List.zip_nil_right]
  have htgt : targetOfAad (0 : Nat) (some (raw (strBytes "seq:2"))) = (2 : Int) := by
    rw [targetOfAad_raw 0 _ (by decide)]
    decide
  have hd := v1_dispatch_future
    (⟨chainAt (List.replicate 32 0) 0, 0, []⟩ : SymmetricRatchetReceiver)
    (encrypt_message (mkAt (List.replicate 32 0) 0) (raw [104, 105])
      (some (raw (strBytes "seq:2"))) fun _ => 0)
    (some (raw (strBytes "seq:2")))
    (lookupSkipI_nil _)
    (by show ((0 : Nat) : Int) < targetOfAad 0 (some (raw (strBytes "seq:2")))
        rw [htgt]
        decide)
    (by show targetOfAad 0 (some (raw (strBytes "seq:2"))) - ((0 : Nat) : Int)
          ≤ (MAX_SKIP_RANGE : Int)
        rw [htgt]
        decide)
    (by show ((([] : List (Nat × Bytes)).length : Int))
          + (targetOfAad 0 (some (raw (strBytes "seq:2"))) - ((0 : Nat) : Int))
          ≤ (MAX_STORED_KEYS : Int)
        rw [htgt]
        decide)
  rw [show (⟨chainAt (List.replicate 32 0) 0, 0, []⟩ : SymmetricRatchetReceiver).chain_key
        = chainAt (List.replicate 32 0) 0 from rfl,
    show (⟨chainAt (List.replicate 32 0) 0, 0, []⟩ : SymmetricRatchetReceiver).step
        = (0 : Nat) from rfl,
    show (⟨chainAt (List.replicate 32 0) 0, 0, []⟩ : SymmetricRatchetReceiver).skipped_keys
        = ([] : List (Nat × Bytes)) from rfl,
    htgt] at hd
  have hfuel : ((2 : Int) - ((0 : Nat) : Int)).toNat = 1 + 1 := by decide
  rw [hfuel, ratchetCatchUp_msgKey (List.replicate 32 0) 0 [] 1] at hd
  rw [hd, decrypt_message_wrong (mkAt (List.replicate 32 0) 0)
    (mkAt (List.replicate 32 0) (0 + 1)) (raw [104, 105]) (some (raw (strBytes "seq:2")))
    (some (raw (strBytes "seq:2"))) (fun _ => 0)
    (Or.inl fun he => absurd (mkAt_inj (by decide) he) (by decide))]
